import Mathlib

/-!
Verification of the Geo Graph Engine (suburb clusters, adjacency,
proximity scoring, cluster splitting, integrity doctor).

The development shallowly embeds the TypeScript/JavaScript sources:
pure functions become Lean functions over `List Char` / `String` / `ℚ`,
JavaScript `Map`s become insertion-ordered association lists, fallible
code returns `Except`/`Option`, and floating-point transcendentals
(`Math.sin`, hashes, …) are kept as explicit parameters so that every
definition stays computable.  String primitives (`toLowerCase`,
`trim`, `normalize('NFKD')`) are modelled on the ASCII fragment:
`toLowerCase` maps the ASCII letters and NFKD acts as the identity
there (ASCII text is already NFKD-normalized).
-/

namespace Geo

/-! ## Character model for the JavaScript string primitives -/

/-- Model of the regex class `\s` (ASCII fragment): tab, LF, VT, FF, CR, space. -/
def isWsC (c : Char) : Bool := (9 ≤ c.toNat && c.toNat ≤ 13) || c.toNat == 32

/-- ASCII lower-case letter `a`–`z`. -/
def isLowerAZ (c : Char) : Bool := 97 ≤ c.toNat && c.toNat ≤ 122

/-- ASCII upper-case letter `A`–`Z`. -/
def isUpperAZ (c : Char) : Bool := 65 ≤ c.toNat && c.toNat ≤ 90

/-- ASCII digit `0`–`9`. -/
def isDigitC (c : Char) : Bool := 48 ≤ c.toNat && c.toNat ≤ 57

/-- Model of `String.prototype.toLowerCase` on one character (ASCII fragment). -/
def jsLower (c : Char) : Char := if isUpperAZ c then Char.ofNat (c.toNat + 32) else c

/-- Model of `String.prototype.trim`: drop leading and trailing whitespace. -/
def trimWsL (l : List Char) : List Char :=
  ((l.dropWhile isWsC).reverse.dropWhile isWsC).reverse

/-- Model of `str.replace(/X+/g, '-')` for a character class `p`:
every maximal run of characters satisfying `p` becomes a single hyphen.
The `inRun` flag records whether the scanner is inside a run already. -/
def replRunsAux (p : Char → Bool) : Bool → List Char → List Char
  | _, [] => []
  | inRun, c :: rest =>
      if p c then
        if inRun then replRunsAux p true rest else '-' :: replRunsAux p true rest
      else c :: replRunsAux p false rest

/-- Model of `str.replace(/X+/g, '-')` for a character class `p`. -/
def replRuns (p : Char → Bool) (l : List Char) : List Char := replRunsAux p false l

/-! ## The two slug normalizers of the repository -/

/-- Character class kept by the clusters-facade `slugify`
(`src/lib/clusters.ts`): the regex `[^a-z0-9\s-]` deletes everything else. -/
def keepF (c : Char) : Bool := isLowerAZ c || isDigitC c || isWsC c || c == '-'

/-- The clusters-facade `slugify` (`src/lib/clusters.ts`, lines 19–27):
`trim`, `toLowerCase`, delete `[^a-z0-9\s-]`, replace `\s+` runs by `-`,
collapse `-+` runs. -/
def slugifyF (s : String) : String :=
  ⟨replRuns (fun c => c == '-')
    (replRuns isWsC (((trimWsL s.data).map jsLower).filter keepF))⟩

/-- ASCII model of the Unicode classes `\p{L}` and `\p{N}`. -/
def isAlnumC (c : Char) : Bool := isLowerAZ c || isUpperAZ c || isDigitC c

/-- Model of `String.prototype.normalize('NFKD')`: the identity on the
ASCII fragment covered by this development (ASCII strings are already
NFKD-normalized; diacritic decomposition lies outside the model). -/
def nfkdL (l : List Char) : List Char := l

/-- Model of removing one leading hyphen (the leading-edge alternative of
the edge-trim regex in the source, which removes one leading and one
trailing hyphen). -/
def dropLeadH : List Char → List Char
  | [] => []
  | c :: t => if c = '-' then t else c :: t

/-- Model of `replace(/^-|-$/g,'')`: drop one leading and one trailing hyphen. -/
def dropEdgeH (l : List Char) : List Char := (dropLeadH (dropLeadH l).reverse).reverse

/-- The sync-doctor-inputs `slugify` (`scripts/geo/sync-doctor-inputs.mjs`,
embedded at `src/lib/clusters.ts` lines 696–697): `trim`, `toLowerCase`,
`normalize('NFKD')`, replace `[^\p{L}\p{N}]+` runs by `-`, collapse `-+`,
strip one leading/trailing `-`. -/
def slugifySD (s : String) : String :=
  ⟨dropEdgeH (replRuns (fun c => c == '-')
    (replRuns (fun c => !isAlnumC c) (nfkdL ((trimWsL s.data).map jsLower))))⟩

/-! ## Structural lemmas about `replRuns` -/

theorem mem_replRunsAux {p : Char → Bool} :
    ∀ {l : List Char} {b : Bool} {c : Char},
      c ∈ replRunsAux p b l → c = '-' ∨ (c ∈ l ∧ p c = false) := by
  intro l
  induction l with
  | nil => intro b c h; simp [replRunsAux] at h
  | cons d rest ih =>
      intro b c h
      by_cases hd : p d
      · cases b with
        | true =>
            simp only [replRunsAux, hd, if_true] at h
            rcases ih h with h2 | ⟨h2, h3⟩
            · exact Or.inl h2
            · exact Or.inr ⟨List.mem_cons_of_mem d h2, h3⟩
        | false =>
            simp only [replRunsAux, hd, if_true, Bool.false_eq_true, if_false] at h
            rcases List.mem_cons.mp h with h1 | h1
            · exact Or.inl h1
            · rcases ih h1 with h2 | ⟨h2, h3⟩
              · exact Or.inl h2
              · exact Or.inr ⟨List.mem_cons_of_mem d h2, h3⟩
      · simp only [replRunsAux, hd, if_false, Bool.false_eq_true] at h
        rcases List.mem_cons.mp h with h1 | h1
        · subst h1; exact Or.inr ⟨List.mem_cons_self _ _, Bool.eq_false_iff.mpr hd⟩
        · rcases ih h1 with h2 | ⟨h2, h3⟩
          · exact Or.inl h2
          · exact Or.inr ⟨List.mem_cons_of_mem d h2, h3⟩

theorem mem_replRuns {p : Char → Bool} {l : List Char} {c : Char}
    (h : c ∈ replRuns p l) : c = '-' ∨ (c ∈ l ∧ p c = false) :=
  mem_replRunsAux h

theorem replRunsAux_head? {p : Char → Bool} :
    ∀ {l : List Char} {b : Bool} {c : Char},
      (replRunsAux p b l).head? = some c → p c = false ∨ (c = '-' ∧ b = false) := by
  intro l
  induction l with
  | nil => intro b c h; simp [replRunsAux] at h
  | cons d rest ih =>
      intro b c h
      by_cases hd : p d
      · cases b with
        | true =>
            simp only [replRunsAux, hd, if_true] at h
            rcases ih h with h1 | ⟨_, h2⟩
            · exact Or.inl h1
            · exact absurd h2 (by simp)
        | false =>
            simp only [replRunsAux, hd, if_true, Bool.false_eq_true, if_false,
              List.head?_cons, Option.some.injEq] at h
            exact Or.inr ⟨h.symm, rfl⟩
      · simp only [replRunsAux, hd, if_false, Bool.false_eq_true,
          List.head?_cons, Option.some.injEq] at h
        subst h
        exact Or.inl (Bool.eq_false_iff.mpr hd)

theorem chain'_replRunsAux (p : Char → Bool) :
    ∀ (l : List Char) (b : Bool),
      List.Chain' (fun a b => ¬(p a = true ∧ p b = true)) (replRunsAux p b l) := by
  intro l
  induction l with
  | nil => intro b; simp [replRunsAux]
  | cons d rest ih =>
      intro b
      by_cases hd : p d
      · cases b with
        | true =>
            simp only [replRunsAux, hd, if_true]
            exact ih true
        | false =>
            simp only [replRunsAux, hd, if_true, Bool.false_eq_true, if_false]
            rw [List.chain'_cons']
            refine ⟨?_, ih true⟩
            intro y hy
            rcases replRunsAux_head? hy with h1 | ⟨_, h2⟩
            · simp [h1]
            · exact absurd h2 (by simp)
      · simp only [replRunsAux, hd, if_false, Bool.false_eq_true]
        rw [List.chain'_cons']
        refine ⟨?_, ih false⟩
        intro y _
        simp [hd]

theorem chain'_replRuns (p : Char → Bool) (l : List Char) :
    List.Chain' (fun a b => ¬(p a = true ∧ p b = true)) (replRuns p l) :=
  chain'_replRunsAux p l false

theorem replRuns_eq_self_of_none {p : Char → Bool} :
    ∀ {l : List Char}, (∀ c ∈ l, p c = false) → replRuns p l = l := by
  intro l
  induction l with
  | nil => intro _; rfl
  | cons c t ih =>
      intro h
      show replRunsAux p false (c :: t) = c :: t
      simp only [replRunsAux, h c (by simp), if_false, Bool.false_eq_true]
      have ih2 : replRunsAux p false t = t :=
        ih (fun d hd => h d (List.mem_cons_of_mem c hd))
      rw [ih2]

theorem replRunsAux_true_eq_false {p : Char → Bool} {t : List Char}
    (h : ∀ e, t.head? = some e → p e = false) :
    replRunsAux p true t = replRunsAux p false t := by
  cases t with
  | nil => rfl
  | cons e t2 =>
      have he : p e = false := h e rfl
      simp only [replRunsAux, he, if_false, Bool.false_eq_true]

theorem replRuns_eq_self {p : Char → Bool} :
    ∀ {l : List Char},
      (∀ c ∈ l, p c = true → c = '-') →
      List.Chain' (fun a b => ¬(p a = true ∧ p b = true)) l →
      replRuns p l = l := by
  intro l
  induction l with
  | nil => intro _ _; rfl
  | cons c t ih =>
      intro hl hch
      rcases List.chain'_cons'.mp hch with ⟨hhead, htail⟩
      show replRunsAux p false (c :: t) = c :: t
      by_cases hc : p c
      · have hcd : c = '-' := hl c (by simp) hc
        simp only [replRunsAux, hc, if_true, Bool.false_eq_true, if_false]
        have hstep : replRunsAux p true t = replRunsAux p false t := by
          apply replRunsAux_true_eq_false
          intro e he
          have hrel : ¬(p c = true ∧ p e = true) := hhead e he
          cases hpe : p e
          · rfl
          · exact absurd ⟨hc, hpe⟩ hrel
        have ih2 : replRunsAux p false t = t :=
          ih (fun d hd => hl d (List.mem_cons_of_mem c hd)) htail
        rw [hstep, ih2, hcd]
      · simp only [replRunsAux, hc, if_false, Bool.false_eq_true]
        have ih2 : replRunsAux p false t = t :=
          ih (fun d hd => hl d (List.mem_cons_of_mem c hd)) htail
        rw [ih2]

/-! ## Character-class facts -/

theorem toNat_ofNat_valid {n : Nat} (h : n < 55296) : (Char.ofNat n).toNat = n := by
  unfold Char.ofNat
  rw [dif_pos (Or.inl h)]
  rfl

theorem jsLower_not_upper (c : Char) : isUpperAZ (jsLower c) = false := by
  unfold jsLower
  by_cases h : isUpperAZ c = true
  · rw [if_pos h]
    have hu : 65 ≤ c.toNat ∧ c.toNat ≤ 90 := by
      simp only [isUpperAZ, Bool.and_eq_true, decide_eq_true_eq] at h
      exact h
    have hn : (Char.ofNat (c.toNat + 32)).toNat = c.toNat + 32 :=
      toNat_ofNat_valid (by omega)
    refine Bool.eq_false_iff.mpr fun hx => ?_
    simp only [isUpperAZ, Bool.and_eq_true, decide_eq_true_eq, hn] at hx
    omega
  · rw [if_neg h]
    exact Bool.eq_false_iff.mpr h

theorem outChar_not_ws {c : Char} (h : (isLowerAZ c || isDigitC c || c == '-') = true) :
    isWsC c = false := by
  refine Bool.eq_false_iff.mpr fun hws => ?_
  simp only [Bool.or_eq_true, beq_iff_eq, isLowerAZ, isDigitC, Bool.and_eq_true,
    decide_eq_true_eq] at h
  simp only [isWsC, Bool.or_eq_true, Bool.and_eq_true, decide_eq_true_eq, beq_iff_eq] at hws
  rcases h with (h | h) | h
  · omega
  · omega
  · subst h
    revert hws
    decide

theorem outChar_not_upper {c : Char} (h : (isLowerAZ c || isDigitC c || c == '-') = true) :
    isUpperAZ c = false := by
  refine Bool.eq_false_iff.mpr fun hup => ?_
  simp only [Bool.or_eq_true, beq_iff_eq, isLowerAZ, isDigitC, Bool.and_eq_true,
    decide_eq_true_eq] at h
  simp only [isUpperAZ, Bool.and_eq_true, decide_eq_true_eq] at hup
  rcases h with (h | h) | h
  · omega
  · omega
  · subst h
    revert hup
    decide

theorem outChar_keepF {c : Char} (h : (isLowerAZ c || isDigitC c || c == '-') = true) :
    keepF c = true := by
  simp only [Bool.or_eq_true] at h
  rcases h with (h | h) | h <;> simp [keepF, h]

theorem outChar_jsLower_fix {c : Char} (h : (isLowerAZ c || isDigitC c || c == '-') = true) :
    jsLower c = c := by
  unfold jsLower
  rw [if_neg]
  simp [outChar_not_upper h]

/-! ## Helper lemmas for fixpoint arguments -/

theorem dropWhile_eq_self_of_none {p : Char → Bool} {l : List Char}
    (h : ∀ c ∈ l, p c = false) : l.dropWhile p = l := by
  cases l with
  | nil => rfl
  | cons c t => rw [List.dropWhile_cons_of_neg]; simp [h c (by simp)]

theorem trimWsL_eq_self {l : List Char} (h : ∀ c ∈ l, isWsC c = false) : trimWsL l = l := by
  unfold trimWsL
  rw [dropWhile_eq_self_of_none h,
    dropWhile_eq_self_of_none (fun c hc => h c (List.mem_reverse.mp hc)),
    List.reverse_reverse]

theorem map_eq_self_of_fix {f : Char → Char} {l : List Char} (h : ∀ c ∈ l, f c = c) :
    l.map f = l := by
  induction l with
  | nil => rfl
  | cons c t ih =>
      simp only [List.map_cons, h c (by simp), List.cons.injEq, true_and]
      exact ih (fun d hd => h d (List.mem_cons_of_mem c hd))

theorem chain'_imp_mem {R S : Char → Char → Prop} :
    ∀ {l : List Char}, (∀ a ∈ l, ∀ b ∈ l, R a b → S a b) →
      List.Chain' R l → List.Chain' S l := by
  intro l
  induction l with
  | nil => intro _ _; simp
  | cons c t ih =>
      intro h hch
      rcases List.chain'_cons'.mp hch with ⟨hhead, htail⟩
      refine List.chain'_cons'.mpr ⟨?_, ?_⟩
      · intro y hy
        have hyt : y ∈ t := List.mem_of_mem_head? hy
        exact h c (by simp) y (List.mem_cons_of_mem c hyt) (hhead y hy)
      · exact ih
          (fun a ha b hb => h a (List.mem_cons_of_mem c ha) b (List.mem_cons_of_mem c hb)) htail

/-! ## Edge-hyphen lemmas -/

theorem dropLeadH_cases (l : List Char) : dropLeadH l = l ∨ dropLeadH l = l.tail := by
  cases l with
  | nil => exact Or.inl rfl
  | cons c t =>
      by_cases hc : c = '-'
      · right; simp [dropLeadH, hc]
      · left; simp [dropLeadH, hc]

theorem mem_dropLeadH {l : List Char} {c : Char} (h : c ∈ dropLeadH l) : c ∈ l := by
  rcases dropLeadH_cases l with he | he
  · rwa [he] at h
  · rw [he] at h; exact List.mem_of_mem_tail h

theorem chain'_dropLeadH {R : Char → Char → Prop} {l : List Char}
    (h : List.Chain' R l) : List.Chain' R (dropLeadH l) := by
  rcases dropLeadH_cases l with he | he
  · rwa [he]
  · rw [he]; exact h.tail

theorem dropLeadH_head? {l : List Char}
    (hch : List.Chain' (fun a b => ¬(a = '-' ∧ b = '-')) l) {c : Char}
    (h : (dropLeadH l).head? = some c) : c ≠ '-' := by
  cases l with
  | nil => simp [dropLeadH] at h
  | cons d t =>
      by_cases hd : d = '-'
      · subst hd
        simp only [dropLeadH, if_pos rfl] at h
        rcases List.chain'_cons'.mp hch with ⟨hhead, _⟩
        have := hhead c h
        intro hc
        exact this ⟨rfl, hc⟩
      · simp only [dropLeadH, if_neg hd, List.head?_cons, Option.some.injEq] at h
        subst h
        exact hd

theorem dropLeadH_eq_self {l : List Char} (h : ∀ c, l.head? = some c → c ≠ '-') :
    dropLeadH l = l := by
  cases l with
  | nil => rfl
  | cons d t =>
      simp only [dropLeadH, if_neg (h d rfl)]

theorem getLast?_dropLeadH (l : List Char) :
    (dropLeadH l).getLast? = l.getLast? ∨ (dropLeadH l).getLast? = none := by
  cases l with
  | nil => exact Or.inl rfl
  | cons d t =>
      by_cases hd : d = '-'
      · cases t with
        | nil =>
            right
            simp [dropLeadH, hd]
        | cons e t2 =>
            left
            simp only [dropLeadH, if_pos hd]
            rw [List.getLast?_cons_cons]
      · left
        simp [dropLeadH, hd]

/-! ## Output characterization of the two normalizers -/

/-- No two adjacent hyphens. -/
def NoHH (a b : Char) : Prop := ¬(a = '-' ∧ b = '-')

theorem mem_slugifyF {s : String} {c : Char} (h : c ∈ (slugifyF s).data) :
    (isLowerAZ c || isDigitC c || c == '-') = true := by
  have h0 : c ∈ replRuns (fun c => c == '-')
      (replRuns isWsC (((trimWsL s.data).map jsLower).filter keepF)) := h
  rcases mem_replRuns h0 with h1 | ⟨h1, hne⟩
  · simp [h1]
  · rcases mem_replRuns h1 with h2 | ⟨h2, hws⟩
    · subst h2; simp at hne
    · have hk : keepF c = true := (List.mem_filter.mp h2).2
      simp only [keepF, Bool.or_eq_true] at hk
      rcases hk with ((h3 | h3) | h3) | h3
      · simp [h3]
      · simp [h3]
      · simp [hws] at h3
      · simp [h3]

theorem chain'_slugifyF (s : String) : List.Chain' NoHH (slugifyF s).data := by
  have h := chain'_replRuns (fun c => c == '-')
      (replRuns isWsC (((trimWsL s.data).map jsLower).filter keepF))
  exact List.Chain'.imp
    (fun a b hab => fun he => hab ⟨by simp [he.1], by simp [he.2]⟩) h

/-- The list produced by `slugifySD` before the final edge-hyphen trim. -/
def sdCore (s : String) : List Char :=
  replRuns (fun c => c == '-')
    (replRuns (fun c => !isAlnumC c) (nfkdL ((trimWsL s.data).map jsLower)))

theorem slugifySD_data (s : String) : (slugifySD s).data = dropEdgeH (sdCore s) := rfl

theorem mem_sdCore {s : String} {c : Char} (h : c ∈ sdCore s) :
    (isLowerAZ c || isDigitC c || c == '-') = true := by
  rcases mem_replRuns h with h1 | ⟨h1, hne⟩
  · simp [h1]
  · rcases mem_replRuns h1 with h2 | ⟨h2, hna⟩
    · subst h2; simp at hne
    · have halnum : isAlnumC c = true := by simpa using hna
      have hnup : isUpperAZ c = false := by
        rcases List.mem_map.mp h2 with ⟨d, _, hd⟩
        rw [← hd]; exact jsLower_not_upper d
      simp only [isAlnumC, Bool.or_eq_true] at halnum
      rcases halnum with (h3 | h3) | h3
      · simp [h3]
      · simp [hnup] at h3
      · simp [h3]

theorem chain'_sdCore (s : String) : List.Chain' NoHH (sdCore s) := by
  have h := chain'_replRuns (fun c => c == '-')
      (replRuns (fun c => !isAlnumC c) (nfkdL ((trimWsL s.data).map jsLower)))
  exact List.Chain'.imp
    (fun a b hab => fun he => hab ⟨by simp [he.1], by simp [he.2]⟩) h

theorem mem_slugifySD {s : String} {c : Char} (h : c ∈ (slugifySD s).data) :
    (isLowerAZ c || isDigitC c || c == '-') = true := by
  rw [slugifySD_data] at h
  unfold dropEdgeH at h
  rw [List.mem_reverse] at h
  have h2 := mem_dropLeadH h
  rw [List.mem_reverse] at h2
  exact mem_sdCore (mem_dropLeadH h2)

theorem chain'_slugifySD (s : String) : List.Chain' NoHH (slugifySD s).data := by
  rw [slugifySD_data]
  unfold dropEdgeH
  rw [List.chain'_reverse]
  apply chain'_dropLeadH
  rw [List.chain'_reverse]
  exact chain'_dropLeadH (chain'_sdCore s)

theorem slugifySD_head? (s : String) : (slugifySD s).data.head? ≠ some '-' := by
  rw [slugifySD_data]
  intro h
  unfold dropEdgeH at h
  rw [List.head?_reverse] at h
  rcases getLast?_dropLeadH ((dropLeadH (sdCore s)).reverse) with he | he
  · rw [he, List.getLast?_reverse] at h
    exact dropLeadH_head? (chain'_sdCore s) h rfl
  · rw [he] at h; cases h

theorem slugifySD_getLast? (s : String) : (slugifySD s).data.getLast? ≠ some '-' := by
  rw [slugifySD_data]
  intro h
  unfold dropEdgeH at h
  rw [List.getLast?_reverse] at h
  have hch0 : List.Chain' NoHH (dropLeadH (sdCore s)) :=
    chain'_dropLeadH (chain'_sdCore s)
  have hch : List.Chain' NoHH ((dropLeadH (sdCore s)).reverse) := by
    rw [List.chain'_reverse]
    exact hch0.imp (fun a b hab => fun he => hab ⟨he.2, he.1⟩)
  exact dropLeadH_head? hch h rfl

/-! ## Idempotence of the two normalizers -/

theorem slugifyF_idem (s : String) : slugifyF (slugifyF s) = slugifyF s := by
  have hmem : ∀ c ∈ (slugifyF s).data, (isLowerAZ c || isDigitC c || c == '-') = true :=
    fun c hc => mem_slugifyF hc
  have h1 : trimWsL (slugifyF s).data = (slugifyF s).data :=
    trimWsL_eq_self (fun c hc => outChar_not_ws (hmem c hc))
  have h2 : (slugifyF s).data.map jsLower = (slugifyF s).data :=
    map_eq_self_of_fix (fun c hc => outChar_jsLower_fix (hmem c hc))
  have h3 : (slugifyF s).data.filter keepF = (slugifyF s).data :=
    List.filter_eq_self.mpr (fun c hc => outChar_keepF (hmem c hc))
  have h4 : replRuns isWsC (slugifyF s).data = (slugifyF s).data :=
    replRuns_eq_self_of_none (fun c hc => outChar_not_ws (hmem c hc))
  have h5 : replRuns (fun c => c == '-') (slugifyF s).data = (slugifyF s).data := by
    apply replRuns_eq_self
    · intro c _ hcb
      simpa using hcb
    · exact List.Chain'.imp
        (fun a b hab => fun he => by
          refine hab ⟨?_, ?_⟩ <;> simp_all) (chain'_slugifyF s)
  show (⟨replRuns (fun c => c == '-')
      (replRuns isWsC (((trimWsL (slugifyF s).data).map jsLower).filter keepF))⟩ : String)
    = slugifyF s
  rw [h1, h2, h3, h4, h5]

theorem slugifySD_idem (s : String) : slugifySD (slugifySD s) = slugifySD s := by
  have hmem : ∀ c ∈ (slugifySD s).data, (isLowerAZ c || isDigitC c || c == '-') = true :=
    fun c hc => mem_slugifySD hc
  have hch : List.Chain' NoHH (slugifySD s).data := chain'_slugifySD s
  have h1 : trimWsL (slugifySD s).data = (slugifySD s).data :=
    trimWsL_eq_self (fun c hc => outChar_not_ws (hmem c hc))
  have h2 : (slugifySD s).data.map jsLower = (slugifySD s).data :=
    map_eq_self_of_fix (fun c hc => outChar_jsLower_fix (hmem c hc))
  have hdash : ∀ c ∈ (slugifySD s).data, (!isAlnumC c) = true → c = '-' := by
    intro c hc hp
    have hm := hmem c hc
    simp only [Bool.or_eq_true, beq_iff_eq] at hm
    rcases hm with (h3 | h3) | h3
    · exfalso; revert hp; simp [isAlnumC, h3]
    · exfalso; revert hp; simp [isAlnumC, h3]
    · exact h3
  have h3 : replRuns (fun c => !isAlnumC c) (slugifySD s).data = (slugifySD s).data := by
    apply replRuns_eq_self hdash
    refine @chain'_imp_mem NoHH _ _ ?_ hch
    intro a ha b hb hab he
    exact hab ⟨hdash a ha he.1, hdash b hb he.2⟩
  have h4 : replRuns (fun c => c == '-') (slugifySD s).data = (slugifySD s).data := by
    apply replRuns_eq_self
    · intro c _ hcb
      simpa using hcb
    · exact List.Chain'.imp
        (fun a b hab => fun he => by
          refine hab ⟨?_, ?_⟩ <;> simp_all) hch
  have h5 : dropEdgeH (slugifySD s).data = (slugifySD s).data := by
    unfold dropEdgeH
    have ha : dropLeadH (slugifySD s).data = (slugifySD s).data := by
      apply dropLeadH_eq_self
      intro c hc hcd
      subst hcd
      exact slugifySD_head? s hc
    rw [ha]
    have hb : dropLeadH (slugifySD s).data.reverse = (slugifySD s).data.reverse := by
      apply dropLeadH_eq_self
      intro c hc hcd
      subst hcd
      rw [List.head?_reverse] at hc
      exact slugifySD_getLast? s hc
    rw [hb, List.reverse_reverse]
  show (⟨dropEdgeH (replRuns (fun c => c == '-')
      (replRuns (fun c => !isAlnumC c)
        (nfkdL ((trimWsL (slugifySD s).data).map jsLower))))⟩ : String)
    = slugifySD s
  simp only [nfkdL]
  rw [h1, h2, h3, h4, h5]

/-! ## Claims C4 and C5: the slug normalizer contract -/

/-- C4, counterexample: the clusters-facade `slugify` (cited source,
`src/lib/clusters.ts` lines 19–27) violates the stated contract at
concrete inputs: punctuation between words is deleted rather than
replaced by a hyphen, and leading/trailing hyphens are not trimmed. -/
theorem c4_facade_counterexample :
    slugifyF "a.b" = "ab" ∧ slugifyF "a.b" ≠ "a-b" ∧
    slugifyF "-a-" = "-a-" ∧ (slugifyF "-a-").data.head? = some '-' :=
  ⟨by decide, by decide, by decide, by decide⟩

/-- C4, amended: the sync-doctor-inputs `slugify` satisfies the stated
contract on the ASCII fragment — the output consists of lower-case
letters, digits and hyphens only, never begins or ends with a hyphen,
never contains two adjacent hyphens, and punctuation between words
yields a hyphen — while the clusters-facade `slugify` instead deletes
non-alphanumerics (other than whitespace and hyphens) and keeps edge
hyphens. -/
theorem c4_slug_normalizer (s : String) :
    (∀ c ∈ (slugifySD s).data, (isLowerAZ c || isDigitC c || c == '-') = true) ∧
    (slugifySD s).data.head? ≠ some '-' ∧
    (slugifySD s).data.getLast? ≠ some '-' ∧
    List.Chain' NoHH (slugifySD s).data ∧
    slugifySD "a.b" = "a-b" ∧
    slugifySD "  Hello,  World!  " = "hello-world" ∧
    slugifySD "--x--" = "x" :=
  ⟨fun _ hc => mem_slugifySD hc, slugifySD_head? s, slugifySD_getLast? s,
    chain'_slugifySD s, by decide, by decide, by decide⟩

/-- C5: both slug normalizers of the repository are idempotent:
`normalize(normalize(x)) = normalize(x)` for every input string. -/
theorem c5_normalizer_idempotent (s : String) :
    slugifyF (slugifyF s) = slugifyF s ∧ slugifySD (slugifySD s) = slugifySD s :=
  ⟨slugifyF_idem s, slugifySD_idem s⟩

/-! ## Doctor scoring model
(`scripts/geo/doctor.mjs`, embedded at `src/lib/clusters.ts` lines 906–1352) -/

/-- JavaScript `Map.get` on an insertion-ordered association list. -/
def mapGet {α : Type} (m : List (String × α)) (k : String) : Option α :=
  (m.find? (fun p => p.1 == k)).map (fun p => p.2)

/-- JavaScript `Map.set`: overwrite the value in place if the key is
present (keeping its original position), else append. -/
def mapSet {α : Type} (m : List (String × α)) (k : String) (v : α) : List (String × α) :=
  if m.any (fun p => p.1 == k) then
    m.map (fun p => if p.1 == k then (k, v) else p)
  else m ++ [(k, v)]

/-- Scoring weights read from `cfg.data` by the doctor
(`adjacencyBoost`, `clusterBoost`, `biasKm`, `crossClusterPenalty`). -/
structure Weights where
  adjacencyBoost : ℚ
  clusterBoost : ℚ
  biasKm : ℚ
  crossPenalty : ℚ
  deriving DecidableEq

/-- Record stored in `suburbBySlug`: `{name, lat, lng, cluster}`.
`name` is `none` when the JSON field is absent; `lat`/`lng` are `none`
when absent or non-finite (`isNum` fails). -/
structure SubRec where
  name : Option String
  lat : Option ℚ
  lng : Option ℚ
  cluster : String
  deriving DecidableEq

/-- The floating-point transcendentals used by `haversineKm`
(`Math.PI`, `Math.sin`, `Math.cos`, `Math.asin`, `Math.sqrt`), kept
abstract so the embedding stays exact and computable. -/
structure TrigOps where
  pi : ℚ
  sin : ℚ → ℚ
  cos : ℚ → ℚ
  asin : ℚ → ℚ
  sqrt : ℚ → ℚ

/-- `haversineKm(a, b)`: haversine great-circle distance on a sphere of
radius `R = 6371` km. -/
def haversineKm (ops : TrigOps) (alat alng blat blng : ℚ) : ℚ :=
  let toRad := fun (x : ℚ) => x * ops.pi / 180
  let R : ℚ := 6371
  let dLat := toRad (blat - alat)
  let dLng := toRad (blng - alng)
  let s := ops.sin (dLat / 2) ^ 2 +
    ops.cos (toRad alat) * ops.cos (toRad blat) * ops.sin (dLng / 2) ^ 2
  2 * R * ops.asin (ops.sqrt s)

/-- A JavaScript number used as a score: `-Infinity` or a finite value. -/
inductive Score where
  | ninf : Score
  | fin : ℚ → Score
  deriving DecidableEq

/-- `isSameCluster(a, b)`: `a.cluster && b.cluster && a.cluster===b.cluster`
(the empty string is falsy). -/
def isSameCluster (a b : SubRec) : Bool :=
  !(a.cluster == "") && !(b.cluster == "") && a.cluster == b.cluster

/-- The per-pair score breakdown built up by `scorePair`. -/
structure Parts where
  adjacency : ℚ
  cluster : ℚ
  distance : ℚ
  crossPenalty : ℚ
  deriving DecidableEq

/-- The per-pair score breakdown assembled by `scorePair`: start from all
zeros, set `adjacency` when `dst` is a direct neighbour, set `cluster`
or `crossPenalty` by cluster membership, set `distance` when all four
coordinates are present. -/
def scoreParts (w : Weights) (ops : TrigOps) (neighbors : List String)
    (dst : String) (A B : SubRec) : Parts :=
  let p0 : Parts := ⟨0, 0, 0, 0⟩
  let p1 := if neighbors.contains dst then { p0 with adjacency := w.adjacencyBoost } else p0
  let p2 := if isSameCluster A B then { p1 with cluster := w.clusterBoost }
    else { p1 with crossPenalty := -|w.crossPenalty| }
  match A.lat, A.lng, B.lat, B.lng with
  | some alat, some alng, some blat, some blng =>
      { p2 with distance := -|w.biasKm| * haversineKm ops alat alng blat blng }
  | _, _, _, _ => p2

/-- `scorePair(srcSlug, dstSlug)`: additive score of a candidate pair; a
missing suburb yields `-Infinity` with an empty breakdown. -/
def scorePair (sub : List (String × SubRec)) (adjL : List (String × List String))
    (w : Weights) (ops : TrigOps) (src dst : String) : Score × Option Parts :=
  match mapGet sub src, mapGet sub dst with
  | some A, some B =>
      let p3 := scoreParts w ops ((mapGet adjL src).getD []) dst A B
      (Score.fin (p3.adjacency + p3.cluster + p3.distance + p3.crossPenalty), some p3)
  | _, _ => (Score.ninf, none)

theorem scoreParts_adjacency (w : Weights) (ops : TrigOps) (ns : List String)
    (dst : String) (A B : SubRec) :
    (scoreParts w ops ns dst A B).adjacency =
      if ns.contains dst then w.adjacencyBoost else 0 := by
  unfold scoreParts
  split <;> dsimp only <;> split <;> split <;> rfl

theorem scoreParts_cluster (w : Weights) (ops : TrigOps) (ns : List String)
    (dst : String) (A B : SubRec) :
    (scoreParts w ops ns dst A B).cluster =
      if isSameCluster A B then w.clusterBoost else 0 := by
  unfold scoreParts
  split <;> dsimp only <;> split <;> split <;> rfl

theorem scoreParts_crossPenalty (w : Weights) (ops : TrigOps) (ns : List String)
    (dst : String) (A B : SubRec) :
    (scoreParts w ops ns dst A B).crossPenalty =
      if isSameCluster A B then 0 else -|w.crossPenalty| := by
  unfold scoreParts
  split <;> dsimp only <;> split <;> split <;> rfl

theorem scoreParts_distance (w : Weights) (ops : TrigOps) (ns : List String)
    (dst : String) (A B : SubRec) :
    (scoreParts w ops ns dst A B).distance =
      (match A.lat, A.lng, B.lat, B.lng with
        | some alat, some alng, some blat, some blng =>
            -|w.biasKm| * haversineKm ops alat alng blat blng
        | _, _, _, _ => 0) := by
  unfold scoreParts
  split <;> dsimp only <;> split <;> split <;> rfl

/-! ## Claim C1: the additive score formula -/

/-- C1: for every pair of suburbs present in the catalog (with truthy
cluster slugs, as the doctor index always produces), `scorePair` equals
the sum of exactly the three additive terms of the specification:
`adjacencyBoost` if `dst` is a direct neighbour of `src` else `0`;
`clusterBoost` if the two suburbs share a cluster else minus the
absolute value of `crossClusterPenalty`; and minus `|biasKm|` times the
haversine distance (sphere radius 6371) when both have coordinates,
with a `0` distance contribution when either lacks them. -/
theorem c1_score_formula (sub : List (String × SubRec)) (adjL : List (String × List String))
    (w : Weights) (ops : TrigOps) (src dst : String) (A B : SubRec)
    (hA : mapGet sub src = some A) (hB : mapGet sub dst = some B)
    (hAc : A.cluster ≠ "") (hBc : B.cluster ≠ "") :
    (scorePair sub adjL w ops src dst).1 = Score.fin (
      (if ((mapGet adjL src).getD []).contains dst then w.adjacencyBoost else 0) +
      (if A.cluster = B.cluster then w.clusterBoost else -|w.crossPenalty|) +
      (match A.lat, A.lng, B.lat, B.lng with
        | some alat, some alng, some blat, some blng =>
            -|w.biasKm| * haversineKm ops alat alng blat blng
        | _, _, _, _ => 0)) := by
  have hsame : isSameCluster A B = true ↔ A.cluster = B.cluster := by
    simp [isSameCluster, hAc, hBc]
  unfold scorePair
  rw [hA, hB]
  dsimp only
  rw [scoreParts_adjacency, scoreParts_cluster, scoreParts_distance, scoreParts_crossPenalty]
  by_cases hcl : A.cluster = B.cluster
  · rw [if_pos (hsame.mpr hcl), if_pos (hsame.mpr hcl), if_pos hcl]
    congr 1
    ring
  · have hsc : ¬ isSameCluster A B = true := fun hx => hcl (hsame.mp hx)
    rw [if_neg hsc, if_neg hsc, if_neg hcl]
    congr 1
    ring

/-- C1 witness: the formula at a concrete two-suburb catalog where the
pair is adjacent, cross-cluster, and the candidate lacks coordinates. -/
theorem c1_score_formula_witness :
    mapGet [("a", (⟨some "A", some 1, some 2, "k"⟩ : SubRec)),
      ("b", (⟨some "B", none, none, "m"⟩ : SubRec))] "a" =
        some ⟨some "A", some 1, some 2, "k"⟩ ∧
    mapGet [("a", (⟨some "A", some 1, some 2, "k"⟩ : SubRec)),
      ("b", (⟨some "B", none, none, "m"⟩ : SubRec))] "b" =
        some ⟨some "B", none, none, "m"⟩ ∧
    (SubRec.cluster ⟨some "A", some 1, some 2, "k"⟩ ≠ "") ∧
    (SubRec.cluster ⟨some "B", none, none, "m"⟩ ≠ "") ∧
    (scorePair [("a", ⟨some "A", some 1, some 2, "k"⟩), ("b", ⟨some "B", none, none, "m"⟩)]
      [("a", ["b"])] ⟨24, 200, 12, 200⟩
      ⟨0, fun _ => 0, fun _ => 0, fun _ => 0, fun _ => 0⟩ "a" "b").1 = Score.fin (
      (if ((mapGet [("a", ["b"])] "a").getD []).contains "b" then
        Weights.adjacencyBoost ⟨24, 200, 12, 200⟩ else 0) +
      (if SubRec.cluster ⟨some "A", some 1, some 2, "k"⟩ =
          SubRec.cluster ⟨some "B", none, none, "m"⟩ then
        Weights.clusterBoost ⟨24, 200, 12, 200⟩
      else -|Weights.crossPenalty ⟨24, 200, 12, 200⟩|) +
      (match SubRec.lat ⟨some "A", some 1, some 2, "k"⟩,
          SubRec.lng ⟨some "A", some 1, some 2, "k"⟩,
          SubRec.lat ⟨some "B", none, none, "m"⟩,
          SubRec.lng ⟨some "B", none, none, "m"⟩ with
        | some alat, some alng, some blat, some blng =>
            -|Weights.biasKm ⟨24, 200, 12, 200⟩| *
              haversineKm ⟨0, fun _ => 0, fun _ => 0, fun _ => 0, fun _ => 0⟩ alat alng blat blng
        | _, _, _, _ => 0)) :=
  ⟨by decide, by decide, by decide, by decide,
    c1_score_formula _ _ _ _ "a" "b" _ _ (by decide) (by decide) (by decide) (by decide)⟩

/-! ## Claim C2: recomputeNearby (pool, stable sort, ranking) -/

/-- A pool entry pushed by `recomputeNearby`: `{slug, name, score}`. -/
structure PoolItem where
  slug : String
  name : String
  score : Score
  deriving DecidableEq

/-- `suburbBySlug.get(slug)?.name || slug` (JavaScript `||`: a missing
name or the empty string falls back to the slug). -/
def jsNameOr (r : Option SubRec) (slug : String) : String :=
  match r with
  | some r2 =>
      match r2.name with
      | some n => if n = "" then slug else n
      | none => slug
  | none => slug

/-- The strict priority encoded by the comparator
`(x, y) => y.score - x.score`: `x` strictly precedes `y` exactly when
`x.score > y.score` (`-Infinity` is below every finite score; a pair of
`-Infinity` scores yields no strict priority). -/
def scoreGt : Score → Score → Bool
  | Score.fin a, Score.fin b => decide (b < a)
  | Score.fin _, Score.ninf => true
  | Score.ninf, _ => false

/-- Insert `x` before the first element that `x` strictly precedes,
after all earlier elements it ties with or follows. -/
def insBefore {α : Type} (before : α → α → Bool) (x : α) : List α → List α
  | [] => [x]
  | y :: ys => if before x y then x :: y :: ys else y :: insBefore before x ys

/-- Stable sort by a strict priority: the ECMAScript
`Array.prototype.sort` contract for a consistent comparator (the
engine sort is stable). -/
def stableSortBy {α : Type} (before : α → α → Bool) (l : List α) : List α :=
  l.foldl (fun acc x => insBefore before x acc) []

/-- The comparator of `recomputeNearby`. -/
def poolBefore (x y : PoolItem) : Bool := scoreGt x.score y.score

/-- The candidate pool of `recomputeNearby`: every catalog key other
than the source, with its display name and score. -/
def poolOf (sub : List (String × SubRec)) (adjL : List (String × List String))
    (w : Weights) (ops : TrigOps) (src : String) : List PoolItem :=
  ((sub.map Prod.fst).filter (fun slug => slug ≠ src)).map (fun slug =>
    { slug := slug
      name := jsNameOr (mapGet sub slug) slug
      score := (scorePair sub adjL w ops src slug).1 })

/-- An output entry `{slug, name}`. -/
structure Entry where
  slug : String
  name : String
  deriving DecidableEq

/-- `recomputeNearby(srcSlug, max)`: score every other catalog suburb,
sort descending by score with the stable engine sort, and return the
first `max` entries. -/
def recomputeNearby (sub : List (String × SubRec)) (adjL : List (String × List String))
    (w : Weights) (ops : TrigOps) (src : String) (max : ℕ) : List Entry :=
  match mapGet sub src with
  | none => []
  | some _ =>
      ((stableSortBy poolBefore (poolOf sub adjL w ops src)).take max).map
        (fun x => ⟨x.slug, x.name⟩)

/-! ### Order facts about `scoreGt` -/

theorem scoreGt_irrefl (a : Score) : scoreGt a a = false := by
  cases a <;> simp [scoreGt]

theorem scoreGt_asymm {a b : Score} (h : scoreGt a b = true) : scoreGt b a = false := by
  cases a with
  | ninf => simp [scoreGt] at h
  | fin x =>
      cases b with
      | ninf => simp [scoreGt]
      | fin y =>
          simp only [scoreGt, decide_eq_true_eq] at h
          simp only [scoreGt, decide_eq_false_iff_not]
          exact not_lt.mpr (le_of_lt h)

theorem scoreGt_negtrans {x y z : Score} (h1 : scoreGt y x = false)
    (h2 : scoreGt z y = false) : scoreGt z x = false := by
  cases z with
  | ninf => simp [scoreGt]
  | fin c =>
      cases y with
      | ninf => simp [scoreGt] at h2
      | fin b =>
          cases x with
          | ninf => simp [scoreGt] at h1
          | fin a =>
              simp only [scoreGt, decide_eq_false_iff_not] at h1 h2 ⊢
              intro hac
              exact h1 (lt_of_lt_of_le hac (not_lt.mp h2))

theorem scoreGt_trans_right {x y z : Score} (h1 : scoreGt x y = true)
    (h2 : scoreGt z y = false) : scoreGt x z = true := by
  cases y with
  | ninf =>
      cases z with
      | ninf => cases x with
        | ninf => simp [scoreGt] at h1
        | fin a => simp [scoreGt]
      | fin b => simp [scoreGt] at h2
  | fin b =>
      cases x with
      | ninf => simp [scoreGt] at h1
      | fin a =>
          cases z with
          | ninf => simp [scoreGt]
          | fin c =>
              simp only [scoreGt, decide_eq_true_eq] at h1 ⊢
              simp only [scoreGt, decide_eq_false_iff_not] at h2
              exact lt_of_le_of_lt (not_lt.mp h2) h1

/-! ### Generic facts about the stable insertion sort -/

theorem mem_insBefore {α : Type} {before : α → α → Bool} {x : α} :
    ∀ {l : List α} {y : α}, y ∈ insBefore before x l → y = x ∨ y ∈ l := by
  intro l
  induction l with
  | nil => intro y h; simp [insBefore] at h; exact Or.inl h
  | cons z zs ih =>
      intro y h
      by_cases hxz : before x z = true
      · simp only [insBefore, if_pos hxz] at h
        rcases List.mem_cons.mp h with h1 | h1
        · exact Or.inl h1
        · exact Or.inr h1
      · simp only [insBefore, if_neg hxz] at h
        rcases List.mem_cons.mp h with h1 | h1
        · subst h1; exact Or.inr (List.mem_cons_self _ _)
        · rcases ih h1 with h2 | h2
          · exact Or.inl h2
          · exact Or.inr (List.mem_cons_of_mem _ h2)

theorem insBefore_perm {α : Type} (before : α → α → Bool) (x : α) :
    ∀ (l : List α), (insBefore before x l).Perm (x :: l) := by
  intro l
  induction l with
  | nil => exact List.Perm.refl _
  | cons z zs ih =>
      by_cases hxz : before x z = true
      · simp only [insBefore, if_pos hxz]
        exact List.Perm.refl _
      · simp only [insBefore, if_neg hxz]
        exact (List.Perm.cons z ih).trans (List.Perm.swap x z zs)

theorem pairwise_insBefore {α : Type} {before : α → α → Bool}
    (hasym : ∀ a b, before a b = true → before b a = false)
    (hneg : ∀ a b c, before b a = false → before c b = false → before c a = false)
    {l : List α} (x : α)
    (hp : List.Pairwise (fun a b => before b a = false) l) :
    List.Pairwise (fun a b => before b a = false) (insBefore before x l) := by
  induction l with
  | nil => simp [insBefore]
  | cons y ys ih =>
      rcases List.pairwise_cons.mp hp with ⟨hy, hys⟩
      by_cases hxy : before x y = true
      · simp only [insBefore, if_pos hxy]
        refine List.pairwise_cons.mpr ⟨?_, hp⟩
        intro z hz
        rcases List.mem_cons.mp hz with h1 | h1
        · subst h1; exact hasym _ _ hxy
        · exact hneg x y z (hasym _ _ hxy) (hy z h1)
      · simp only [insBefore, if_neg hxy]
        refine List.pairwise_cons.mpr ⟨?_, ih hys⟩
        intro z hz
        rcases mem_insBefore hz with h1 | h1
        · subst h1; exact Bool.eq_false_iff.mpr hxy
        · exact hy z h1

theorem pairwise_foldl_ins {α : Type} {before : α → α → Bool}
    (hasym : ∀ a b, before a b = true → before b a = false)
    (hneg : ∀ a b c, before b a = false → before c b = false → before c a = false) :
    ∀ (l acc : List α), List.Pairwise (fun a b => before b a = false) acc →
      List.Pairwise (fun a b => before b a = false)
        (l.foldl (fun acc x => insBefore before x acc) acc) := by
  intro l
  induction l with
  | nil => intro acc h; exact h
  | cons x xs ih =>
      intro acc h
      exact ih (insBefore before x acc) (pairwise_insBefore hasym hneg x h)

theorem perm_foldl_ins {α : Type} (before : α → α → Bool) :
    ∀ (l acc : List α),
      (l.foldl (fun acc x => insBefore before x acc) acc).Perm (acc ++ l) := by
  intro l
  induction l with
  | nil => intro acc; simp
  | cons x xs ih =>
      intro acc
      refine (ih (insBefore before x acc)).trans ?_
      refine (List.Perm.append_right xs (insBefore_perm before x acc)).trans ?_
      exact List.perm_middle.symm

theorem stableSortBy_perm {α : Type} (before : α → α → Bool) (l : List α) :
    (stableSortBy before l).Perm l := by
  have h := perm_foldl_ins before l []
  simpa [stableSortBy] using h

theorem stableSortBy_pairwise {α : Type} {before : α → α → Bool}
    (hasym : ∀ a b, before a b = true → before b a = false)
    (hneg : ∀ a b c, before b a = false → before c b = false → before c a = false)
    (l : List α) :
    List.Pairwise (fun a b => before b a = false) (stableSortBy before l) :=
  pairwise_foldl_ins hasym hneg l [] (List.Pairwise.nil)

/-! ### Stability of the sort on equal-score classes -/

theorem score_ne_of_gt {x : PoolItem} {q : Score} {e : PoolItem}
    (hq : x.score = q) (hgt : scoreGt x.score e.score = true) :
    (e.score == q) = false := by
  refine Bool.eq_false_iff.mpr fun hb => ?_
  have he : e.score = q := by simpa using hb
  rw [hq, he] at hgt
  rw [scoreGt_irrefl] at hgt
  cases hgt

theorem filter_insBefore_score {x : PoolItem} {q : Score} :
    ∀ {acc : List PoolItem},
      List.Pairwise (fun a b => poolBefore b a = false) acc →
      (insBefore poolBefore x acc).filter (fun e => e.score == q) =
        acc.filter (fun e => e.score == q) ++ if x.score == q then [x] else [] := by
  intro acc
  induction acc with
  | nil =>
      intro _
      cases hq : x.score == q <;> simp [insBefore, List.filter, hq]
  | cons y ys ih =>
      intro hp
      rcases List.pairwise_cons.mp hp with ⟨hy, hys⟩
      by_cases hxy : poolBefore x y = true
      · simp only [insBefore, if_pos hxy]
        by_cases hq : (x.score == q) = true
        · have hqeq : x.score = q := by simpa using hq
          have hnil : (y :: ys).filter (fun e => e.score == q) = [] := by
            rw [List.filter_eq_nil_iff]
            intro e he
            rcases List.mem_cons.mp he with h1 | h1
            · subst h1
              simp [score_ne_of_gt hqeq hxy]
            · have h2 : scoreGt x.score e.score = true :=
                scoreGt_trans_right hxy (hy e h1)
              simp [score_ne_of_gt hqeq h2]
          rw [List.filter_cons_of_pos (by simpa using hq), hnil, hq]
          simp
        · have hqf : (x.score == q) = false := Bool.eq_false_iff.mpr hq
          rw [List.filter_cons_of_neg (by simpa using hq), hqf]
          simp
      · simp only [insBefore, if_neg hxy]
        by_cases hyq : (y.score == q) = true
        · rw [List.filter_cons_of_pos (by simpa using hyq),
            List.filter_cons_of_pos (by simpa using hyq), ih hys,
            List.cons_append]
        · rw [List.filter_cons_of_neg (by simpa using hyq),
            List.filter_cons_of_neg (by simpa using hyq), ih hys]

theorem poolBefore_asymm (a b : PoolItem) (h : poolBefore a b = true) :
    poolBefore b a = false := scoreGt_asymm h

theorem poolBefore_negtrans (a b c : PoolItem) (h1 : poolBefore b a = false)
    (h2 : poolBefore c b = false) : poolBefore c a = false := scoreGt_negtrans h1 h2

theorem filter_foldl_ins_score (q : Score) :
    ∀ (l acc : List PoolItem),
      List.Pairwise (fun a b => poolBefore b a = false) acc →
      (l.foldl (fun acc x => insBefore poolBefore x acc) acc).filter
          (fun e => e.score == q) =
        acc.filter (fun e => e.score == q) ++ l.filter (fun e => e.score == q) := by
  intro l
  induction l with
  | nil => intro acc _; simp
  | cons x xs ih =>
      intro acc hp
      have step := ih (insBefore poolBefore x acc)
        (pairwise_insBefore poolBefore_asymm poolBefore_negtrans x hp)
      rw [List.foldl_cons, step, filter_insBefore_score hp]
      by_cases hq : (x.score == q) = true
      · rw [List.filter_cons_of_pos (by simpa using hq), hq]
        simp
      · rw [List.filter_cons_of_neg (by simpa using hq), Bool.eq_false_iff.mpr hq]
        simp

theorem stableSortBy_filter_score (l : List PoolItem) (q : Score) :
    (stableSortBy poolBefore l).filter (fun e => e.score == q) =
      l.filter (fun e => e.score == q) := by
  have h := filter_foldl_ins_score q l [] List.Pairwise.nil
  simpa [stableSortBy] using h

/-! ### The specified tie-break, modelled from the spec -/

/-- Modelled from the spec: the comparator the specification describes —
"sorts descending by score, ties broken by ascending slug (for
determinism)".  Used only to compare the specified ordering with the
implemented one. -/
def specBefore (x y : PoolItem) : Bool :=
  scoreGt x.score y.score || (x.score == y.score && decide (x.slug < y.slug))

/-- Modelled from the spec: `nearest` as the specification words it,
identical to `recomputeNearby` except for the tie-breaking comparator. -/
def specNearest (sub : List (String × SubRec)) (adjL : List (String × List String))
    (w : Weights) (ops : TrigOps) (src : String) (max : ℕ) : List Entry :=
  match mapGet sub src with
  | none => []
  | some _ =>
      ((stableSortBy specBefore (poolOf sub adjL w ops src)).take max).map
        (fun x => ⟨x.slug, x.name⟩)

/-! ### Claim C2 -/

/-- C2, counterexample: with three equal-score candidates stored in
catalog order `a, c, b`, `recomputeNearby` returns the ties in catalog
insertion order (`c` before `b`), not in ascending slug order as the
claim states; the spec-ordered list differs at the same input. -/
theorem c2_counterexample :
    recomputeNearby
        [("a", ⟨some "A", none, none, "k"⟩), ("c", ⟨some "C", none, none, "k"⟩),
          ("b", ⟨some "B", none, none, "k"⟩)]
        [] ⟨24, 200, 12, 200⟩ ⟨0, fun _ => 0, fun _ => 0, fun _ => 0, fun _ => 0⟩ "a" 6 =
      [⟨"c", "C"⟩, ⟨"b", "B"⟩] ∧
    specNearest
        [("a", ⟨some "A", none, none, "k"⟩), ("c", ⟨some "C", none, none, "k"⟩),
          ("b", ⟨some "B", none, none, "k"⟩)]
        [] ⟨24, 200, 12, 200⟩ ⟨0, fun _ => 0, fun _ => 0, fun _ => 0, fun _ => 0⟩ "a" 6 =
      [⟨"b", "B"⟩, ⟨"c", "C"⟩] ∧
    recomputeNearby
        [("a", ⟨some "A", none, none, "k"⟩), ("c", ⟨some "C", none, none, "k"⟩),
          ("b", ⟨some "B", none, none, "k"⟩)]
        [] ⟨24, 200, 12, 200⟩ ⟨0, fun _ => 0, fun _ => 0, fun _ => 0, fun _ => 0⟩ "a" 6 ≠
      specNearest
        [("a", ⟨some "A", none, none, "k"⟩), ("c", ⟨some "C", none, none, "k"⟩),
          ("b", ⟨some "B", none, none, "k"⟩)]
        [] ⟨24, 200, 12, 200⟩ ⟨0, fun _ => 0, fun _ => 0, fun _ => 0, fun _ => 0⟩ "a" 6 := by
  refine ⟨?_, ?_, ?_⟩
  · with_unfolding_all rfl
  · with_unfolding_all rfl
  · intro h
    have h2 : ([⟨"c", "C"⟩, ⟨"b", "B"⟩] : List Entry) = [⟨"b", "B"⟩, ⟨"c", "C"⟩] := by
      conv at h => rw [(by with_unfolding_all rfl :
        recomputeNearby
          [("a", ⟨some "A", none, none, "k"⟩), ("c", ⟨some "C", none, none, "k"⟩),
            ("b", ⟨some "B", none, none, "k"⟩)]
          [] ⟨24, 200, 12, 200⟩ ⟨0, fun _ => 0, fun _ => 0, fun _ => 0, fun _ => 0⟩ "a" 6 =
        ([⟨"c", "C"⟩, ⟨"b", "B"⟩] : List Entry)), (by with_unfolding_all rfl :
        specNearest
          [("a", ⟨some "A", none, none, "k"⟩), ("c", ⟨some "C", none, none, "k"⟩),
            ("b", ⟨some "B", none, none, "k"⟩)]
          [] ⟨24, 200, 12, 200⟩ ⟨0, fun _ => 0, fun _ => 0, fun _ => 0, fun _ => 0⟩ "a" 6 =
        ([⟨"b", "B"⟩, ⟨"c", "C"⟩] : List Entry))]
      exact h
    simp at h2

/-- C2, amended: for every catalog suburb, `recomputeNearby` scores the
source against every other suburb in the catalog, sorts the candidates
descending by score with ties kept in catalog insertion order (the
stable sort), and returns the first `limit` entries; repeated calls on
the same inputs return the same ordered list. -/
theorem c2_nearest_ranking (sub : List (String × SubRec))
    (adjL : List (String × List String)) (w : Weights) (ops : TrigOps)
    (src : String) (max : ℕ) (A : SubRec) (hA : mapGet sub src = some A) :
    ∃ P : List PoolItem,
      recomputeNearby sub adjL w ops src max =
        (P.take max).map (fun x => ⟨x.slug, x.name⟩) ∧
      P.Perm (poolOf sub adjL w ops src) ∧
      List.Pairwise (fun a b => scoreGt b.score a.score = false) P ∧
      (∀ q : Score, P.filter (fun e => e.score == q) =
        (poolOf sub adjL w ops src).filter (fun e => e.score == q)) ∧
      (poolOf sub adjL w ops src).map (fun e => e.slug) =
        (sub.map Prod.fst).filter (fun slug => slug ≠ src) ∧
      recomputeNearby sub adjL w ops src max = recomputeNearby sub adjL w ops src max := by
  refine ⟨stableSortBy poolBefore (poolOf sub adjL w ops src), ?_, ?_, ?_, ?_, ?_, rfl⟩
  · unfold recomputeNearby
    rw [hA]
  · exact stableSortBy_perm poolBefore _
  · exact stableSortBy_pairwise poolBefore_asymm poolBefore_negtrans _
  · intro q
    exact stableSortBy_filter_score _ q
  · unfold poolOf
    rw [List.map_map]
    exact List.map_id' _

/-- C2 witness: the ranking characterization at a concrete catalog. -/
theorem c2_nearest_ranking_witness :
    mapGet [("a", (⟨some "A", none, none, "k"⟩ : SubRec)),
      ("b", (⟨some "B", none, none, "k"⟩ : SubRec))] "a" =
        some ⟨some "A", none, none, "k"⟩ ∧
    (∃ P : List PoolItem,
      recomputeNearby [("a", ⟨some "A", none, none, "k"⟩),
          ("b", ⟨some "B", none, none, "k"⟩)] []
          ⟨24, 200, 12, 200⟩ ⟨0, fun _ => 0, fun _ => 0, fun _ => 0, fun _ => 0⟩ "a" 6 =
        (P.take 6).map (fun x => ⟨x.slug, x.name⟩) ∧
      P.Perm (poolOf [("a", ⟨some "A", none, none, "k"⟩),
          ("b", ⟨some "B", none, none, "k"⟩)] []
          ⟨24, 200, 12, 200⟩ ⟨0, fun _ => 0, fun _ => 0, fun _ => 0, fun _ => 0⟩ "a") ∧
      List.Pairwise (fun a b => scoreGt b.score a.score = false) P ∧
      (∀ q : Score, P.filter (fun e => e.score == q) =
        (poolOf [("a", ⟨some "A", none, none, "k"⟩),
          ("b", ⟨some "B", none, none, "k"⟩)] []
          ⟨24, 200, 12, 200⟩ ⟨0, fun _ => 0, fun _ => 0, fun _ => 0, fun _ => 0⟩
          "a").filter (fun e => e.score == q)) ∧
      (poolOf [("a", ⟨some "A", none, none, "k"⟩),
          ("b", ⟨some "B", none, none, "k"⟩)] []
          ⟨24, 200, 12, 200⟩ ⟨0, fun _ => 0, fun _ => 0, fun _ => 0, fun _ => 0⟩
          "a").map (fun e => e.slug) =
        (([("a", (⟨some "A", none, none, "k"⟩ : SubRec)),
          ("b", (⟨some "B", none, none, "k"⟩ : SubRec))].map Prod.fst).filter
          (fun slug => slug ≠ "a")) ∧
      recomputeNearby [("a", ⟨some "A", none, none, "k"⟩),
          ("b", ⟨some "B", none, none, "k"⟩)] []
          ⟨24, 200, 12, 200⟩ ⟨0, fun _ => 0, fun _ => 0, fun _ => 0, fun _ => 0⟩ "a" 6 =
        recomputeNearby [("a", ⟨some "A", none, none, "k"⟩),
          ("b", ⟨some "B", none, none, "k"⟩)] []
          ⟨24, 200, 12, 200⟩ ⟨0, fun _ => 0, fun _ => 0, fun _ => 0, fun _ => 0⟩ "a" 6) :=
  ⟨by decide, c2_nearest_ranking _ _ _ _ "a" 6 ⟨some "A", none, none, "k"⟩ (by decide)⟩

/-! ## Claim C3 / C6: the zod cluster-index build
(`normalizeClusters` in the validate-data script, `src/unnamed/part_000`) -/

/-- Modelled from the spec: the slug normalizer imported from
`~/lib/links/knownSuburbs`, whose source is not part of the repository
snapshot.  Per §4.1 of the specification it lowercases, strips
diacritics, replaces whitespace/non-alphanumeric runs with a single
hyphen, trims leading/trailing hyphens and collapses repeated hyphens —
the behaviour of `slugifySD`. -/
def slugifyKS (raw : String) : String := slugifySD raw

/-- A cluster entry of the array-shaped document (suburbs given as
strings, the shape exercised by the script). -/
structure ZCluster where
  slug : String
  suburbs : List String
  deriving DecidableEq

/-- A clusters document: array shape `{clusters: [...]}` or record
shape `cluster-slug → [suburb, ...]`. -/
inductive ZClustersDoc where
  | arrShape : List ZCluster → ZClustersDoc
  | recShape : List (String × List String) → ZClustersDoc
  deriving DecidableEq

/-- The zod scalar `slug`: nonempty and matching `[a-z0-9-]+`. -/
def zodSlugOk (s : String) : Bool :=
  !(s == "") && s.data.all (fun c => isLowerAZ c || isDigitC c || c == '-')

/-- `ClustersUnion.safeParse` on the modelled documents: the array shape
needs a nonempty cluster list with valid cluster slugs and nonempty
suburb lists of valid slugs; the record shape needs nonempty valid-slug
suburb arrays under arbitrary keys. -/
def zodClustersOk : ZClustersDoc → Bool
  | .arrShape cs =>
      !(cs.isEmpty) && cs.all (fun c =>
        zodSlugOk c.slug && !(c.suburbs.isEmpty) && c.suburbs.all zodSlugOk)
  | .recShape m =>
      m.all (fun p => !(p.2.isEmpty) && p.2.all zodSlugOk)

/-- The iteration both branches of `normalizeClusters` perform: cluster
slug plus raw suburb list, in document order (the two source branches
have identical bodies). -/
def entriesOf : ZClustersDoc → List (String × List String)
  | .arrShape cs => cs.map (fun c => (c.slug, c.suburbs))
  | .recShape m => m

/-- JavaScript default `Array.prototype.sort()` on strings: ascending
lexicographic comparison (modelled by the Lean `String` order on the
ASCII fragment). -/
def strInsSort (l : List String) : List String :=
  stableSortBy (fun x y => decide (x < y)) l

/-- The per-cluster duplicate scan: `seen`-set walk pushing
`cSlug ++ ":" ++ s` for every repeated suburb. -/
def dupScanAux (cSlug : String) : List String → List String → List String
  | _, [] => []
  | seen, s :: rest =>
      if seen.contains s then
        (cSlug ++ ":" ++ s) :: dupScanAux cSlug (s :: seen) rest
      else dupScanAux cSlug (s :: seen) rest

/-- `Array.from(new Set(xs))`: deduplicate keeping first occurrences. -/
def firstDedupAux : List String → List String → List String
  | _, [] => []
  | seen, x :: rest =>
      if seen.contains x then firstDedupAux seen rest
      else x :: firstDedupAux (x :: seen) rest

/-- `Array.from(new Set(xs))` in first-occurrence order. -/
def firstDedup (l : List String) : List String := firstDedupAux [] l

/-- The message of the multiple-cluster failure, exactly as in the
source: `Suburb '<s>' in multiple clusters: '<prev>', '<cSlug>'`. -/
def multiClusterMsg (s prev c : String) : String :=
  "Suburb '" ++ s ++ "' in multiple clusters: '" ++ prev ++ "', '" ++ c ++ "'"

/-- The intra-cluster duplicate failure message. -/
def dupIntraMsg (l : List String) : String :=
  "Duplicate suburb(s) inside cluster: " ++ String.intercalate ", " l

/-- The strict-mode cluster-slug failure message. -/
def nonSlugClusterMsg (c : String) : String :=
  "Non-slug cluster '" ++ c ++ "' (STRICT_MODE)"

/-- The strict-mode suburb failure message. -/
def nonSlugSuburbMsg (s c : String) : String :=
  "Non-slug suburb '" ++ s ++ "' in cluster '" ++ c ++ "' (STRICT_MODE)"

/-- The schema-invalid failure message (the zod error detail string is
abstracted away). -/
def zodClustersErrMsg : String := "clusters schema invalid:"

/-- State threaded through `normalizeClusters`: the `suburbToCluster`
map is used only through `get`/`set` and is modelled as a function;
`clusterToSuburbs` keeps the insertion-ordered entries. -/
structure NCState where
  suburbToCluster : String → Option String
  clusterToSuburbs : List (String × List String)
  dupIntra : List String

/-- The inner suburb loop of `normalizeClusters`: fail on a suburb that
is already mapped to a different truthy cluster, else record it. -/
def ncAssign (cSlug : String) : List String → (String → Option String) →
    Except String (String → Option String)
  | [], m => .ok m
  | s :: rest, m =>
      match m s with
      | some prev =>
          if prev ≠ "" ∧ prev ≠ cSlug then .error (multiClusterMsg s prev cSlug)
          else ncAssign cSlug rest (fun x => if x = s then some cSlug else m x)
      | none => ncAssign cSlug rest (fun x => if x = s then some cSlug else m x)

/-- The cluster loop of `normalizeClusters`: per cluster, optional
strict checks, slugify-and-sort the suburb list, record duplicates,
store the cluster, then run the suburb loop. -/
def ncFold (strict : Bool) : List (String × List String) → NCState →
    Except String NCState
  | [], st => .ok st
  | (cRaw, listRaw) :: rest, st =>
      if strict && !(cRaw == slugifyKS cRaw) then .error (nonSlugClusterMsg cRaw)
      else
        match (if strict then listRaw.find? (fun raw => !(raw == slugifyKS raw)) else none) with
        | some raw => .error (nonSlugSuburbMsg raw cRaw)
        | none =>
            let cSlug := slugifyKS cRaw
            let list := strInsSort (listRaw.map slugifyKS)
            match ncAssign cSlug list st.suburbToCluster with
            | .error e => .error e
            | .ok m =>
                ncFold strict rest
                  { suburbToCluster := m
                    clusterToSuburbs := mapSet st.clusterToSuburbs cSlug list
                    dupIntra := st.dupIntra ++ dupScanAux cSlug [] list }

/-- `normalizeClusters` of the validate-data script: zod-parse the
document, walk the clusters building both indexes, failing fast on a
suburb in two different clusters, then fail on collected intra-cluster
duplicates; `strict` is the `STRICT_MODE` environment toggle. -/
def normalizeClusters (strict : Bool) (doc : ZClustersDoc) : Except String NCState :=
  if !(zodClustersOk doc) then .error zodClustersErrMsg
  else
    match ncFold strict (entriesOf doc) ⟨fun _ => none, [], []⟩ with
    | .error e => .error e
    | .ok st =>
        if st.dupIntra ≠ [] then .error (dupIntraMsg (firstDedup st.dupIntra))
        else .ok st

/-- Membership of a suburb slug in a cluster of the document, after
slugification. -/
def MemS (doc : ZClustersDoc) (s c : String) : Prop :=
  ∃ e ∈ entriesOf doc, slugifyKS e.1 = c ∧ s ∈ e.2.map slugifyKS

/-- Membership over a plain entry list. -/
def MemL (entries : List (String × List String)) (s c : String) : Prop :=
  ∃ e ∈ entries, slugifyKS e.1 = c ∧ s ∈ e.2.map slugifyKS

/-! ### Lemmas about the suburb loop `ncAssign` -/

theorem ncAssign_cons_none {c t : String} {rest : List String}
    {m : String → Option String} (hm : m t = none) :
    ncAssign c (t :: rest) m =
      ncAssign c rest (fun x => if x = t then some c else m x) := by
  rw [ncAssign, hm]

theorem ncAssign_cons_some {c t prev : String} {rest : List String}
    {m : String → Option String} (hm : m t = some prev) :
    ncAssign c (t :: rest) m =
      if prev ≠ "" ∧ prev ≠ c then Except.error (multiClusterMsg t prev c)
      else ncAssign c rest (fun x => if x = t then some c else m x) := by
  rw [ncAssign, hm]

theorem ncAssign_ok_pre {c : String} :
    ∀ {l : List String} {m m2 : String → Option String},
      ncAssign c l m = .ok m2 →
      ∀ s ∈ l, m s = none ∨ m s = some "" ∨ m s = some c := by
  intro l
  induction l with
  | nil => intro m m2 _ s hs; simp at hs
  | cons t rest ih =>
      intro m m2 h s hs
      cases hm : m t with
      | none =>
          rw [ncAssign_cons_none hm] at h
          rcases List.mem_cons.mp hs with h1 | h1
          · subst h1; exact Or.inl hm
          · have h2 := ih h s h1
            by_cases hst : s = t
            · subst hst; exact Or.inl hm
            · simpa [hst] using h2
      | some prev =>
          rw [ncAssign_cons_some hm] at h
          by_cases hcond : prev ≠ "" ∧ prev ≠ c
          · rw [if_pos hcond] at h; cases h
          · rw [if_neg hcond] at h
            have hprev : prev = "" ∨ prev = c := by
              rcases not_and_or.mp hcond with h2 | h2
              · exact Or.inl (not_ne_iff.mp h2)
              · exact Or.inr (not_ne_iff.mp h2)
            rcases List.mem_cons.mp hs with h1 | h1
            · subst h1
              rcases hprev with h2 | h2
              · exact Or.inr (Or.inl (by rw [hm, h2]))
              · exact Or.inr (Or.inr (by rw [hm, h2]))
            · have h2 := ih h s h1
              by_cases hst : s = t
              · subst hst
                rcases hprev with h3 | h3
                · exact Or.inr (Or.inl (by rw [hm, h3]))
                · exact Or.inr (Or.inr (by rw [hm, h3]))
              · simpa [hst] using h2

theorem ncAssign_ok_get {c : String} :
    ∀ {l : List String} {m m2 : String → Option String},
      ncAssign c l m = .ok m2 → ∀ s,
      (s ∈ l → m2 s = some c) ∧ (s ∉ l → m2 s = m s) := by
  intro l
  induction l with
  | nil =>
      intro m m2 h s
      rw [ncAssign] at h
      cases h
      exact ⟨fun hs => absurd hs (by simp), fun _ => rfl⟩
  | cons t rest ih =>
      intro m m2 h s
      have hrec : ncAssign c rest (fun x => if x = t then some c else m x) = .ok m2 := by
        cases hm : m t with
        | none => rw [ncAssign_cons_none hm] at h; exact h
        | some prev =>
            rw [ncAssign_cons_some hm] at h
            by_cases hcond : prev ≠ "" ∧ prev ≠ c
            · rw [if_pos hcond] at h; cases h
            · rw [if_neg hcond] at h; exact h
      constructor
      · intro hs
        rcases List.mem_cons.mp hs with h1 | h1
        · subst h1
          by_cases hsr : s ∈ rest
          · exact (ih hrec s).1 hsr
          · rw [(ih hrec s).2 hsr]; simp
        · exact (ih hrec s).1 h1
      · intro hs
        have hst : s ≠ t := fun he => hs (he ▸ List.mem_cons_self t rest)
        have hsr : s ∉ rest := fun he => hs (List.mem_cons_of_mem t he)
        rw [(ih hrec s).2 hsr]
        simp [hst]

theorem ncAssign_ok_val {c : String} {l : List String} {m m2 : String → Option String}
    (h : ncAssign c l m = .ok m2) (s : String) {v : String} (hv : m2 s = some v) :
    (s ∈ l ∧ v = c) ∨ m s = some v := by
  by_cases hs : s ∈ l
  · left
    refine ⟨hs, ?_⟩
    have h2 := (ncAssign_ok_get h s).1 hs
    rw [h2] at hv
    exact (Option.some.injEq _ _ ▸ hv).symm
  · right
    rw [← (ncAssign_ok_get h s).2 hs]
    exact hv

theorem ncAssign_error {c : String} :
    ∀ {l : List String} {m : String → Option String} {e : String},
      ncAssign c l m = .error e →
      ∃ s prev, s ∈ l ∧ m s = some prev ∧ prev ≠ "" ∧ prev ≠ c ∧
        e = multiClusterMsg s prev c := by
  intro l
  induction l with
  | nil => intro m e h; rw [ncAssign] at h; cases h
  | cons t rest ih =>
      intro m e h
      cases hm : m t with
      | none =>
          rw [ncAssign_cons_none hm] at h
          rcases ih h with ⟨s, prev, hs, hget, hne1, hne2, hmsg⟩
          have hst : s ≠ t := by
            intro he
            subst he
            simp at hget
            exact hne2 hget.symm
          refine ⟨s, prev, List.mem_cons_of_mem t hs, ?_, hne1, hne2, hmsg⟩
          simpa [hst] using hget
      | some prev =>
          rw [ncAssign_cons_some hm] at h
          by_cases hcond : prev ≠ "" ∧ prev ≠ c
          · rw [if_pos hcond] at h
            cases h
            exact ⟨t, prev, List.mem_cons_self t rest, hm, hcond.1, hcond.2, rfl⟩
          · rw [if_neg hcond] at h
            rcases ih h with ⟨s, prev2, hs, hget, hne1, hne2, hmsg⟩
            have hst : s ≠ t := by
              intro he
              subst he
              simp at hget
              exact hne2 hget.symm
            refine ⟨s, prev2, List.mem_cons_of_mem t hs, ?_, hne1, hne2, hmsg⟩
            simpa [hst] using hget

theorem ncAssign_ok_of {c : String} :
    ∀ {l : List String} {m : String → Option String},
      (∀ s ∈ l, m s = none ∨ m s = some "" ∨ m s = some c) →
      ∃ m2, ncAssign c l m = .ok m2 := by
  intro l
  induction l with
  | nil => intro m _; exact ⟨m, rfl⟩
  | cons t rest ih =>
      intro m h
      have hrest : ∀ s ∈ rest, (fun x => if x = t then some c else m x) s = none ∨
          (fun x => if x = t then some c else m x) s = some "" ∨
          (fun x => if x = t then some c else m x) s = some c := by
        intro s hs
        by_cases hst : s = t
        · subst hst; simp
        · simpa [hst] using h s (List.mem_cons_of_mem t hs)
      rcases ih hrest with ⟨m2, hm2⟩
      rcases h t (List.mem_cons_self t rest) with hm | hm | hm
      · exact ⟨m2, by rw [ncAssign_cons_none hm]; exact hm2⟩
      · refine ⟨m2, ?_⟩
        rw [ncAssign_cons_some hm, if_neg (fun hx => hx.1 rfl)]
        exact hm2
      · refine ⟨m2, ?_⟩
        rw [ncAssign_cons_some hm, if_neg (fun hx => hx.2 rfl)]
        exact hm2

/-! ### Lemmas about the cluster loop `ncFold` (non-strict mode) -/

theorem ncFold_false_cons (cRaw : String) (listRaw : List String)
    (rest : List (String × List String)) (st : NCState) :
    ncFold false ((cRaw, listRaw) :: rest) st =
      (match ncAssign (slugifyKS cRaw) (strInsSort (listRaw.map slugifyKS))
          st.suburbToCluster with
      | .error e => .error e
      | .ok m =>
          ncFold false rest
            { suburbToCluster := m
              clusterToSuburbs := mapSet st.clusterToSuburbs (slugifyKS cRaw)
                (strInsSort (listRaw.map slugifyKS))
              dupIntra := st.dupIntra ++
                dupScanAux (slugifyKS cRaw) [] (strInsSort (listRaw.map slugifyKS)) }) :=
  rfl

theorem mem_strInsSort {s : String} {l : List String} :
    s ∈ strInsSort l ↔ s ∈ l :=
  (stableSortBy_perm _ l).mem_iff

theorem dupScanAux_nil_of_nodup {c : String} :
    ∀ {l seen : List String}, l.Nodup → (∀ x ∈ l, ¬ x ∈ seen) →
      dupScanAux c seen l = [] := by
  intro l
  induction l with
  | nil => intro seen _ _; rfl
  | cons s rest ih =>
      intro seen hnd hdis
      rw [dupScanAux]
      rw [if_neg (by simpa using hdis s (List.mem_cons_self s rest))]
      apply ih (List.Nodup.of_cons hnd)
      intro x hx
      simp only [List.mem_cons]
      rintro (h1 | h1)
      · subst h1
        exact (List.nodup_cons.mp hnd).1 hx
      · exact hdis x (List.mem_cons_of_mem s hx) h1

theorem ncFold_ok_pointed :
    ∀ {entries : List (String × List String)},
      (∀ e ∈ entries, slugifyKS e.1 ≠ "") →
      ∀ {st st2 : NCState} {s c : String},
        ncFold false entries st = .ok st2 →
        st.suburbToCluster s = some c → c ≠ "" →
        ∀ c2, MemL entries s c2 → c2 = c := by
  intro entries
  induction entries with
  | nil =>
      intro _ st st2 s c _ _ _ c2 hmem
      rcases hmem with ⟨e, he, _, _⟩
      simp at he
  | cons e0 rest ih =>
      intro hcE st st2 s c h hget hcne c2 hmem
      obtain ⟨cRaw, listRaw⟩ := e0
      rw [ncFold_false_cons] at h
      cases han : ncAssign (slugifyKS cRaw) (strInsSort (listRaw.map slugifyKS))
          st.suburbToCluster with
      | error e => rw [han] at h; cases h
      | ok m =>
          rw [han] at h
          rcases hmem with ⟨e, he, hslug, hmemmap⟩
          rcases List.mem_cons.mp he with h1 | h1
          · subst h1
            have hs : s ∈ strInsSort (listRaw.map slugifyKS) := by
              rw [mem_strInsSort]; exact hmemmap
            rcases ncAssign_ok_pre han s hs with h2 | h2 | h2
            · rw [hget] at h2; cases h2
            · rw [hget] at h2
              exact absurd (Option.some.injEq _ _ ▸ h2) hcne
            · rw [hget] at h2
              rw [← hslug]
              exact ((Option.some.injEq _ _).mp h2).symm
          · have hget2 : m s = some c := by
              by_cases hs : s ∈ strInsSort (listRaw.map slugifyKS)
              · have h2 := (ncAssign_ok_get han s).1 hs
                rcases ncAssign_ok_pre han s hs with h3 | h3 | h3
                · rw [hget] at h3; cases h3
                · rw [hget] at h3
                  exact absurd (Option.some.injEq _ _ ▸ h3) hcne
                · rw [hget] at h3
                  rw [h2, ← (Option.some.injEq _ _).mp h3]
              · rw [(ncAssign_ok_get han s).2 hs]
                exact hget
            exact ih (fun e2 he2 => hcE e2 (List.mem_cons_of_mem _ he2)) h hget2 hcne c2
              ⟨e, h1, hslug, hmemmap⟩

theorem ncFold_ok_unique :
    ∀ {entries : List (String × List String)},
      (∀ e ∈ entries, slugifyKS e.1 ≠ "") →
      ∀ {st st2 : NCState},
        ncFold false entries st = .ok st2 →
        (∀ s c, st.suburbToCluster s = some c → c ≠ "") →
        ∀ s c1 c2, MemL entries s c1 → MemL entries s c2 → c1 = c2 := by
  intro entries
  induction entries with
  | nil =>
      intro _ st st2 _ _ s c1 c2 h1 _
      rcases h1 with ⟨e, he, _, _⟩
      simp at he
  | cons e0 rest ih =>
      intro hcE st st2 h hval s c1 c2 h1 h2
      obtain ⟨cRaw, listRaw⟩ := e0
      rw [ncFold_false_cons] at h
      cases han : ncAssign (slugifyKS cRaw) (strInsSort (listRaw.map slugifyKS))
          st.suburbToCluster with
      | error e => rw [han] at h; cases h
      | ok m =>
          rw [han] at h
          have hcne : slugifyKS cRaw ≠ "" :=
            hcE (cRaw, listRaw) (List.mem_cons_self (cRaw, listRaw) rest)
          have hval2 : ∀ s c, m s = some c → c ≠ "" := by
            intro t c hc
            rcases ncAssign_ok_val han t hc with ⟨_, hcc⟩ | hcc
            · rw [hcc]; exact hcne
            · exact hval t c hcc
          have hhead : ∀ {cx : String}, MemL [(cRaw, listRaw)] s cx → m s = some (slugifyKS cRaw) ∧ cx = slugifyKS cRaw := by
            intro cx hx
            rcases hx with ⟨e, he, hslug, hmm⟩
            rcases List.mem_cons.mp he with he1 | he1
            · subst he1
              refine ⟨(ncAssign_ok_get han s).1 ?_, hslug.symm⟩
              rw [mem_strInsSort]; exact hmm
            · simp at he1
          rcases h1 with ⟨e1, he1, hs1, hm1⟩
          rcases h2 with ⟨e2, he2, hs2, hm2⟩
          rcases List.mem_cons.mp he1 with hh1 | hh1 <;>
            rcases List.mem_cons.mp he2 with hh2 | hh2
          · subst hh1; subst hh2
            rw [← hs1, ← hs2]
          · subst hh1
            have hp := @hhead c1 ⟨(cRaw, listRaw), List.mem_cons_self _ _, hs1, hm1⟩
            have hc2 := ncFold_ok_pointed
              (fun e2 he2x => hcE e2 (List.mem_cons_of_mem _ he2x)) h
              (hp.1) hcne c2 ⟨e2, hh2, hs2, hm2⟩
            rw [hc2, hp.2]
          · subst hh2
            have hp := @hhead c2 ⟨(cRaw, listRaw), List.mem_cons_self _ _, hs2, hm2⟩
            have hc1 := ncFold_ok_pointed
              (fun e2 he2x => hcE e2 (List.mem_cons_of_mem _ he2x)) h
              (hp.1) hcne c1 ⟨e1, hh1, hs1, hm1⟩
            rw [hc1, hp.2]
          · exact ih (fun e2 he2x => hcE e2 (List.mem_cons_of_mem _ he2x)) h hval2 s c1 c2
              ⟨e1, hh1, hs1, hm1⟩ ⟨e2, hh2, hs2, hm2⟩

theorem ncFold_error_provenance :
    ∀ {entries : List (String × List String)} (P : String → String → Prop)
      {st : NCState} {e : String},
      ncFold false entries st = .error e →
      (∀ s c, st.suburbToCluster s = some c → P s c) →
      ∃ s prev c, e = multiClusterMsg s prev c ∧ prev ≠ "" ∧ prev ≠ c ∧
        (P s prev ∨ MemL entries s prev) ∧ MemL entries s c := by
  intro entries
  induction entries with
  | nil => intro P st e h _; rw [ncFold] at h; cases h
  | cons e0 rest ih =>
      intro P st e h hsound
      obtain ⟨cRaw, listRaw⟩ := e0
      rw [ncFold_false_cons] at h
      cases han : ncAssign (slugifyKS cRaw) (strInsSort (listRaw.map slugifyKS))
          st.suburbToCluster with
      | error e2 =>
          rw [han] at h
          cases h
          rcases ncAssign_error han with ⟨s, prev, hs, hget, hne1, hne2, hmsg⟩
          refine ⟨s, prev, slugifyKS cRaw, hmsg, hne1, hne2,
            Or.inl (hsound s prev hget), ?_⟩
          exact ⟨(cRaw, listRaw), List.mem_cons_self _ _, rfl, mem_strInsSort.mp hs⟩
      | ok m =>
          rw [han] at h
          have hsound2 : ∀ s c, m s = some c →
              (P s c ∨ MemL [(cRaw, listRaw)] s c) := by
            intro s c hc
            rcases ncAssign_ok_val han s hc with ⟨hsm, hcc⟩ | hcc
            · right
              refine ⟨(cRaw, listRaw), List.mem_cons_self _ _, hcc.symm, ?_⟩
              exact mem_strInsSort.mp hsm
            · exact Or.inl (hsound s c hcc)
          rcases ih (fun s c => P s c ∨ MemL [(cRaw, listRaw)] s c) h hsound2 with
            ⟨s, prev, c, hmsg, hne1, hne2, hor, hmem⟩
          refine ⟨s, prev, c, hmsg, hne1, hne2, ?_, ?_⟩
          · rcases hor with (hp | hm1) | hm1
            · exact Or.inl hp
            · rcases hm1 with ⟨e2, he2, hs2, hm2⟩
              rcases List.mem_cons.mp he2 with hh | hh
              · exact Or.inr ⟨e2, hh ▸ List.mem_cons_self _ _, hs2, hm2⟩
              · simp at hh
            · rcases hm1 with ⟨e2, he2, hs2, hm2⟩
              exact Or.inr ⟨e2, List.mem_cons_of_mem _ he2, hs2, hm2⟩
          · rcases hmem with ⟨e2, he2, hs2, hm2⟩
            exact ⟨e2, List.mem_cons_of_mem _ he2, hs2, hm2⟩

theorem ncFold_ok_of (doc : ZClustersDoc)
    (huniq : ∀ s c1 c2, MemS doc s c1 → MemS doc s c2 → c1 = c2) :
    ∀ (entries : List (String × List String)),
      (∀ e ∈ entries, e ∈ entriesOf doc) →
      (∀ e ∈ entries, (e.2.map slugifyKS).Nodup) →
      ∀ (st : NCState),
        (∀ s c, st.suburbToCluster s = some c → MemS doc s c) →
        ∃ st2, ncFold false entries st = .ok st2 ∧ st2.dupIntra = st.dupIntra := by
  intro entries
  induction entries with
  | nil => intro _ _ st _; exact ⟨st, rfl, rfl⟩
  | cons e0 rest ih =>
      intro hsub hnodup st hsound
      obtain ⟨cRaw, listRaw⟩ := e0
      have hpre : ∀ s ∈ strInsSort (listRaw.map slugifyKS),
          st.suburbToCluster s = none ∨ st.suburbToCluster s = some "" ∨
          st.suburbToCluster s = some (slugifyKS cRaw) := by
        intro s hs
        cases hm : st.suburbToCluster s with
        | none => exact Or.inl rfl
        | some c0 =>
            right; right
            have hmem0 : MemS doc s (slugifyKS cRaw) :=
              ⟨(cRaw, listRaw), hsub (cRaw, listRaw) (List.mem_cons_self _ _), rfl,
                mem_strInsSort.mp hs⟩
            rw [huniq s c0 (slugifyKS cRaw) (hsound s c0 hm) hmem0]
      rcases ncAssign_ok_of hpre with ⟨m2, hm2⟩
      have hscan : dupScanAux (slugifyKS cRaw) [] (strInsSort (listRaw.map slugifyKS)) = [] := by
        apply dupScanAux_nil_of_nodup
        · exact ((stableSortBy_perm _ (listRaw.map slugifyKS)).nodup_iff).mpr
            (hnodup (cRaw, listRaw) (List.mem_cons_self _ _))
        · intro x _ hx
          simp at hx
      have hsound2 : ∀ s c,
          m2 s = some c → MemS doc s c := by
        intro s c hc
        rcases ncAssign_ok_val hm2 s hc with ⟨hsm, hcc⟩ | hcc
        · exact hcc ▸ ⟨(cRaw, listRaw), hsub (cRaw, listRaw) (List.mem_cons_self _ _), rfl,
            mem_strInsSort.mp hsm⟩
        · exact hsound s c hcc
      rcases ih (fun e he => hsub e (List.mem_cons_of_mem _ he))
          (fun e he => hnodup e (List.mem_cons_of_mem _ he))
          { suburbToCluster := m2
            clusterToSuburbs := mapSet st.clusterToSuburbs (slugifyKS cRaw)
              (strInsSort (listRaw.map slugifyKS))
            dupIntra := st.dupIntra ++
              dupScanAux (slugifyKS cRaw) [] (strInsSort (listRaw.map slugifyKS)) }
          hsound2 with ⟨st2, hst2, hdup⟩
      refine ⟨st2, ?_, ?_⟩
      · rw [ncFold_false_cons, hm2]
        exact hst2
      · rw [hdup]
        simp [hscan]

/-! ### Claim C3 -/

/-- C3, counterexample: in a schema-valid document where suburb `a` is
merely listed twice inside the single cluster `x`, every suburb belongs
to exactly one cluster, yet the build fails (with the intra-cluster
duplicate message) instead of succeeding as the claim requires. -/
theorem c3_counterexample :
    normalizeClusters false (ZClustersDoc.arrShape [⟨"x", ["a", "a"]⟩]) =
      .error (dupIntraMsg ["x:a"]) ∧
    (∀ s c1 c2, MemS (ZClustersDoc.arrShape [⟨"x", ["a", "a"]⟩]) s c1 →
      MemS (ZClustersDoc.arrShape [⟨"x", ["a", "a"]⟩]) s c2 → c1 = c2) := by
  constructor
  · with_unfolding_all rfl
  · intro s c1 c2 h1 h2
    rcases h1 with ⟨e1, he1, hs1, _⟩
    rcases h2 with ⟨e2, he2, hs2, _⟩
    simp only [entriesOf, List.map_cons, List.map_nil, List.mem_singleton] at he1 he2
    rw [← hs1, ← hs2, he1, he2]

/-- C3, amended: for schema-valid documents whose cluster slugs stay
nonempty under slugification, a suburb appearing in two different
clusters makes `normalizeClusters` fail with the message naming the two
clusters of the first such violation; and every schema-valid document
in which each suburb slug occurs exactly once globally (no suburb in
two different clusters, no duplicate inside a cluster) builds
successfully. -/
theorem c3_cluster_index (doc : ZClustersDoc)
    (hz : zodClustersOk doc = true)
    (hc : ∀ e ∈ entriesOf doc, slugifyKS e.1 ≠ "")
    (s0 c1 c2 : String) (h1 : MemS doc s0 c1) (h2 : MemS doc s0 c2) (hne : c1 ≠ c2) :
    (∃ s p1 p2, MemS doc s p1 ∧ MemS doc s p2 ∧ p1 ≠ p2 ∧ p1 ≠ "" ∧
      normalizeClusters false doc = .error (multiClusterMsg s p1 p2)) ∧
    (∀ doc2 : ZClustersDoc, zodClustersOk doc2 = true →
      (∀ s q1 q2, MemS doc2 s q1 → MemS doc2 s q2 → q1 = q2) →
      (∀ e ∈ entriesOf doc2, (e.2.map slugifyKS).Nodup) →
      ∃ st, normalizeClusters false doc2 = .ok st) := by
  constructor
  · have hred : normalizeClusters false doc =
        match ncFold false (entriesOf doc) ⟨fun _ => none, [], []⟩ with
        | .error e => .error e
        | .ok st =>
            if st.dupIntra ≠ [] then .error (dupIntraMsg (firstDedup st.dupIntra))
            else .ok st := by
      rw [normalizeClusters, hz]
      rfl
    cases hfold : ncFold false (entriesOf doc) ⟨fun _ => none, [], []⟩ with
    | ok st =>
        exfalso
        exact hne (ncFold_ok_unique hc hfold (fun s c h => by cases h) s0 c1 c2 h1 h2)
    | error e =>
        rcases ncFold_error_provenance (fun _ _ => False) hfold
            (fun s c h => by cases h) with
          ⟨s, prev, c, hmsg, hne1, hne2, hor, hmem⟩
        have hprev : MemL (entriesOf doc) s prev := by
          rcases hor with hf | hm
          · cases hf
          · exact hm
        refine ⟨s, prev, c, hprev, hmem, hne2, hne1, ?_⟩
        rw [hred, hfold, hmsg]
  · intro doc2 hz2 huniq2 hnodup2
    rcases ncFold_ok_of doc2 huniq2 (entriesOf doc2) (fun e he => he) hnodup2
        ⟨fun _ => none, [], []⟩ (fun s c h => by cases h) with ⟨st2, hok, hdup⟩
    refine ⟨st2, ?_⟩
    have hred2 : normalizeClusters false doc2 =
        match ncFold false (entriesOf doc2) ⟨fun _ => none, [], []⟩ with
        | .error e => .error e
        | .ok st =>
            if st.dupIntra ≠ [] then .error (dupIntraMsg (firstDedup st.dupIntra))
            else .ok st := by
      rw [normalizeClusters, hz2]
      rfl
    rw [hred2, hok]
    simp [hdup]

/-- C3 witness: the amended statement at a concrete document in which
suburb `aaa` belongs to clusters `xxx` and `yyy`. -/
theorem c3_cluster_index_witness :
    zodClustersOk (ZClustersDoc.arrShape
      [⟨"xxx", ["aaa"]⟩, ⟨"yyy", ["aaa"]⟩]) = true ∧
    (∀ e ∈ entriesOf (ZClustersDoc.arrShape [⟨"xxx", ["aaa"]⟩, ⟨"yyy", ["aaa"]⟩]),
      slugifyKS e.1 ≠ "") ∧
    MemS (ZClustersDoc.arrShape [⟨"xxx", ["aaa"]⟩, ⟨"yyy", ["aaa"]⟩]) "aaa" "xxx" ∧
    MemS (ZClustersDoc.arrShape [⟨"xxx", ["aaa"]⟩, ⟨"yyy", ["aaa"]⟩]) "aaa" "yyy" ∧
    ("xxx" : String) ≠ "yyy" ∧
    ((∃ s p1 p2,
      MemS (ZClustersDoc.arrShape [⟨"xxx", ["aaa"]⟩, ⟨"yyy", ["aaa"]⟩]) s p1 ∧
      MemS (ZClustersDoc.arrShape [⟨"xxx", ["aaa"]⟩, ⟨"yyy", ["aaa"]⟩]) s p2 ∧
      p1 ≠ p2 ∧ p1 ≠ "" ∧
      normalizeClusters false (ZClustersDoc.arrShape [⟨"xxx", ["aaa"]⟩, ⟨"yyy", ["aaa"]⟩]) =
        .error (multiClusterMsg s p1 p2)) ∧
    (∀ doc2 : ZClustersDoc, zodClustersOk doc2 = true →
      (∀ s q1 q2, MemS doc2 s q1 → MemS doc2 s q2 → q1 = q2) →
      (∀ e ∈ entriesOf doc2, (e.2.map slugifyKS).Nodup) →
      ∃ st, normalizeClusters false doc2 = .ok st)) :=
  ⟨by decide, by decide,
    ⟨("xxx", ["aaa"]), by decide, by decide, by decide⟩,
    ⟨("yyy", ["aaa"]), by decide, by decide, by decide⟩, by decide,
    c3_cluster_index (ZClustersDoc.arrShape [⟨"xxx", ["aaa"]⟩, ⟨"yyy", ["aaa"]⟩])
      (by decide) (by decide) "aaa" "xxx" "yyy"
      ⟨("xxx", ["aaa"]), by decide, by decide, by decide⟩
      ⟨("yyy", ["aaa"]), by decide, by decide, by decide⟩ (by decide)⟩

/-! ## Doctor index build and validation passes
(`scripts/geo/doctor.mjs`, embedded at `src/lib/clusters.ts` lines 957–1044) -/

/-- A parsed suburb record of `areas.clusters.json` as the doctor sees
it (`lat`/`lng` are `none` when absent or non-finite). -/
structure JSub where
  slug : String
  name : Option String
  lat : Option ℚ
  lng : Option ℚ
  deriving DecidableEq

/-- A parsed cluster record; `suburbs` is `none` when the JSON field is
not an array. -/
structure JCluster where
  slug : String
  suburbs : Option (List JSub)
  deriving DecidableEq

/-- The parsed clusters document `{clusters: [...]}`. -/
structure JClusters where
  clusters : List JCluster
  deriving DecidableEq

/-- `String.prototype.trim` on `String`. -/
def jsTrim (s : String) : String := ⟨trimWsL s.data⟩

/-- `isStr(x)`: a string whose trim is nonempty. -/
def isStrB (s : String) : Bool := !(jsTrim s == "")

/-- `isStr` on an optional string (absent fields are not strings). -/
def isStrO : Option String → Bool
  | some s => isStrB s
  | none => false

/-- One step of the suburb loop of the doctor index build: push the
schema issues for this suburb, then `suburbBySlug.set` it. -/
def suburbStep (cSlug : String) (acc : List (String × SubRec) × List String)
    (s : JSub) : List (String × SubRec) × List String :=
  let iss1 := if isStrB s.slug then [] else
    ["Suburb in cluster " ++ cSlug ++ " missing slug"]
  let iss2 := if isStrO s.name then [] else
    ["Suburb " ++ (if s.slug == "" then "(unknown)" else s.slug) ++ " missing name"]
  let iss3 := if (mapGet acc.1 s.slug).isSome then
    ["Duplicate suburb slug \"" ++ s.slug ++ "\" across clusters"] else []
  (mapSet acc.1 s.slug ⟨s.name, s.lat, s.lng, cSlug⟩, acc.2 ++ iss1 ++ iss2 ++ iss3)

/-- One step of the cluster loop of the doctor index build. -/
def clusterStep (acc : List String × List (String × SubRec) × List String)
    (c : JCluster) : List String × List (String × SubRec) × List String :=
  if isStrB c.slug then
    match c.suburbs with
    | none => (acc.1 ++ [c.slug], acc.2.1,
        acc.2.2 ++ ["Cluster " ++ c.slug ++ " has no suburbs[]"])
    | some subs =>
        let r := subs.foldl (suburbStep c.slug) (acc.2.1, acc.2.2)
        (acc.1 ++ [c.slug], r.1, r.2)
  else (acc.1, acc.2.1, acc.2.2 ++ ["Cluster missing/invalid slug"])

/-- The doctor index build: `clusterSlugs`, `suburbBySlug`, and the
schema issues of the cluster pass, in document order. -/
def clusterPass (d : JClusters) : List String × List (String × SubRec) × List String :=
  d.clusters.foldl clusterStep ([], [], [])

/-- The referential issues of the doctor adjacency pass: a missing
source and every missing target are each reported. -/
def adjacencyReferential (sub : List (String × SubRec))
    (adjL : List (String × List String)) : List String :=
  adjL.flatMap (fun p =>
    (if (mapGet sub p.1).isSome then [] else
      ["adjacency: source \"" ++ p.1 ++ "\" not in clusters"]) ++
    p.2.flatMap (fun dst =>
      if (mapGet sub dst).isSome then [] else
        ["adjacency: \"" ++ p.1 ++ "\" -> \"" ++ dst ++ "\" not in clusters"]))

/-- The schema issues of the doctor adjacency pass: every self-loop is
reported. -/
def adjacencySchema (adjL : List (String × List String)) : List String :=
  adjL.flatMap (fun p => p.2.flatMap (fun dst =>
    if dst == p.1 then ["adjacency: \"" ++ p.1 ++ "\" lists itself"] else []))

/-- Substring test, used to state that an error message does not
mention a given token. -/
def strMentionsAux (n : List Char) : List Char → Bool
  | [] => n.isPrefixOf ([] : List Char)
  | c :: t => n.isPrefixOf (c :: t) || strMentionsAux n t

/-- Whether `needle` occurs as a substring of `hay`. -/
def strMentions (hay needle : String) : Bool := strMentionsAux needle.data hay.data

/-- C6, counterexample: a schema-valid document with two distinct
multi-cluster violations (`aaa` and `qqq` each listed in clusters `xxx`
and `yyy`) makes `normalizeClusters` fail with a message naming only
the first violation; the message never mentions `qqq`. -/
theorem c6_counterexample :
    normalizeClusters false
      (ZClustersDoc.arrShape [⟨"xxx", ["aaa", "qqq"]⟩, ⟨"yyy", ["aaa", "qqq"]⟩]) =
      .error (multiClusterMsg "aaa" "xxx" "yyy") ∧
    MemS (ZClustersDoc.arrShape [⟨"xxx", ["aaa", "qqq"]⟩, ⟨"yyy", ["aaa", "qqq"]⟩])
      "qqq" "xxx" ∧
    MemS (ZClustersDoc.arrShape [⟨"xxx", ["aaa", "qqq"]⟩, ⟨"yyy", ["aaa", "qqq"]⟩])
      "qqq" "yyy" ∧
    strMentions (multiClusterMsg "aaa" "xxx" "yyy") "qqq" = false := by
  refine ⟨by with_unfolding_all rfl,
    ⟨("xxx", ["aaa", "qqq"]), by decide, by decide, by decide⟩,
    ⟨("yyy", ["aaa", "qqq"]), by decide, by decide, by decide⟩,
    by decide⟩

/-- C6, amended: the doctor adjacency validation pass aggregates every
finding of its run instead of stopping at the first: every adjacency
source absent from the suburb index, every edge target absent from the
index, and every self-loop each contribute their own message to the
collected issue lists (`normalizeClusters`, by contrast, fails fast at
the first multi-cluster suburb). -/
theorem c6_pass_aggregation (sub : List (String × SubRec))
    (adjL : List (String × List String)) :
    (∀ p ∈ adjL, mapGet sub p.1 = none →
      ("adjacency: source \"" ++ p.1 ++ "\" not in clusters") ∈
        adjacencyReferential sub adjL) ∧
    (∀ p ∈ adjL, ∀ dst ∈ p.2, mapGet sub dst = none →
      ("adjacency: \"" ++ p.1 ++ "\" -> \"" ++ dst ++ "\" not in clusters") ∈
        adjacencyReferential sub adjL) ∧
    (∀ p ∈ adjL, ∀ dst ∈ p.2, dst = p.1 →
      ("adjacency: \"" ++ p.1 ++ "\" lists itself") ∈ adjacencySchema adjL) := by
  refine ⟨?_, ?_, ?_⟩
  · intro p hp hm
    refine List.mem_flatMap.mpr ⟨p, hp, List.mem_append.mpr (Or.inl ?_)⟩
    simp [hm]
  · intro p hp dst hdst hm
    refine List.mem_flatMap.mpr ⟨p, hp, List.mem_append.mpr (Or.inr ?_)⟩
    refine List.mem_flatMap.mpr ⟨dst, hdst, ?_⟩
    simp [hm]
  · intro p hp dst hdst he
    refine List.mem_flatMap.mpr ⟨p, hp, List.mem_flatMap.mpr ⟨dst, hdst, ?_⟩⟩
    simp [he]

/-- C6 witness: on a concrete adjacency map with a missing source, a
missing target and a self-loop, all three findings are present in the
collected lists at once. -/
theorem c6_pass_aggregation_witness :
    ("adjacency: source \"zz\" not in clusters") ∈
      adjacencyReferential [("a", ⟨some "A", none, none, "k"⟩)]
        [("zz", ["a"]), ("a", ["ww", "a"])] ∧
    ("adjacency: \"a\" -> \"ww\" not in clusters") ∈
      adjacencyReferential [("a", ⟨some "A", none, none, "k"⟩)]
        [("zz", ["a"]), ("a", ["ww", "a"])] ∧
    ("adjacency: \"a\" lists itself") ∈
      adjacencySchema [("zz", ["a"]), ("a", ["ww", "a"])] := by
  have h := c6_pass_aggregation [("a", ⟨some "A", none, none, "k"⟩)]
    [("zz", ["a"]), ("a", ["ww", "a"])]
  exact ⟨h.1 ("zz", ["a"]) (by decide) (by decide),
    h.2.1 ("a", ["ww", "a"]) (by decide) "ww" (by decide) (by decide),
    h.2.2 ("a", ["ww", "a"]) (by decide) "a" (by decide) (by decide)⟩

/-! ## Doctor report assembly
(`scripts/geo/doctor.mjs`, embedded at `src/lib/clusters.ts` lines 906–1352) -/

/-- A `readJson` result: success flag, error text (`null` on success),
and the parsed data (the fallback value on failure). -/
structure Load (α : Type) where
  ok : Bool
  err : Option String
  data : α

/-- JavaScript `a || b` on an optional string (absent and empty are
falsy). -/
def jsOr (o : Option String) (d : String) : String :=
  match o with
  | some s => if s == "" then d else s
  | none => d

/-- String interpolation of a possibly-undefined value (JavaScript
prints `undefined`). -/
def showO : Option String → String
  | some s => s
  | none => "undefined"

/-- The doctor index gate: a missing clusters file yields one
`missing` issue, a document whose `clusters` is not an array one
`schema` issue, otherwise the cluster pass runs. Returns
`(clusterSlugs, suburbBySlug, missing issues, schema issues)`. -/
def doctorIndex (c : Load (Option JClusters)) :
    List String × List (String × SubRec) × List String × List String :=
  if !c.ok then
    ([], [], ["Missing src/data/areas.clusters.json: " ++ jsOr c.err "file not found"], [])
  else
    match c.data with
    | none => ([], [], [], ["src/data/areas.clusters.json must be \x7bclusters: []\x7d"])
    | some d =>
        let r := clusterPass d
        (r.1, r.2.1, [], r.2.2)

/-- The cluster_map check: with the file loaded, each key that is not a
cluster slug yields one referential issue; otherwise one warning.
Returns `(referential, warnings)`. -/
def clusterMapIssues (clusterSlugs : List String) (cm : Load (List String)) :
    List String × List String :=
  if cm.ok then
    ((cm.data.filter (fun k => !clusterSlugs.contains k)).map
      (fun k => "cluster_map.json references unknown cluster \"" ++ k ++ "\""), [])
  else ([], ["cluster_map.json missing — region will be undefined in some UIs/LD."])

/-- The adjacency pass over the raw adjacency object (a value is `none`
when it is not a string array): missing sources and missing targets go
to `referential`, non-array values and self-loops to `schema`, all
aggregated in document order. Returns `(referential, schema)`. -/
def adjacencyPass (sub : List (String × SubRec))
    (adjL : List (String × Option (List String))) : List String × List String :=
  adjL.foldl (fun acc p =>
    let r1 := if (mapGet sub p.1).isSome then [] else
      ["adjacency: source \"" ++ p.1 ++ "\" not in clusters"]
    match p.2 with
    | none => (acc.1 ++ r1, acc.2 ++ ["adjacency[\"" ++ p.1 ++ "\"] must be string[]"])
    | some l =>
        l.foldl (fun a dst =>
          (a.1 ++ (if (mapGet sub dst).isSome then [] else
            ["adjacency: \"" ++ p.1 ++ "\" -> \"" ++ dst ++ "\" not in clusters"]),
           a.2 ++ (if dst == p.1 then ["adjacency: \"" ++ p.1 ++ "\" lists itself"] else [])))
          (acc.1 ++ r1, acc.2)) ([], [])

/-- One proximity item of `proximity.json` is modelled by its `slug`
field (`none` when absent). -/
abbrev ProxItem := Option String

/-- One item of the proximity check: schema issues for a missing slug,
a self reference and a duplicate (the seen set may hold `undefined`),
and a referential issue for a truthy slug absent from the index. The
state is `(seen, referential, schema)`. -/
def proxItemStep (sub : List (String × SubRec)) (src : String)
    (acc : List ProxItem × List String × List String) (it : ProxItem) :
    List ProxItem × List String × List String :=
  let s1 := if isStrO it then [] else ["proximity[\"" ++ src ++ "\"] item missing slug"]
  let s2 := if it == some src then ["proximity[\"" ++ src ++ "\"] contains self"] else []
  let s3 := if acc.1.contains it then
    ["proximity[\"" ++ src ++ "\"] duplicate \"" ++ showO it ++ "\""] else []
  let r1 := match it with
    | some s => if !(s == "") && !(mapGet sub s).isSome then
        ["proximity[\"" ++ src ++ "\"] -> \"" ++ s ++ "\" not in clusters"] else []
    | none => []
  (acc.1 ++ [it], acc.2.1 ++ r1, acc.2.2 ++ s1 ++ s2 ++ s3)

/-- One source of the proximity check: an unknown source yields one
referential issue and skips its items, a non-array value one schema
issue, an over-long list one warning before the item loop. The state is
`(referential, schema, warnings)`. -/
def proxSrcStep (sub : List (String × SubRec)) (limit : Nat)
    (acc : List String × List String × List String)
    (p : String × Option (List ProxItem)) : List String × List String × List String :=
  if !(mapGet sub p.1).isSome then
    (acc.1 ++ ["proximity: source \"" ++ p.1 ++ "\" not in clusters"], acc.2.1, acc.2.2)
  else
    match p.2 with
    | none => (acc.1, acc.2.1 ++ ["proximity.nearby[\"" ++ p.1 ++ "\"] must be an array"], acc.2.2)
    | some arr =>
        let w := if limit < arr.length then
          ["proximity[\"" ++ p.1 ++ "\"] length " ++ toString arr.length ++
            " exceeds limit " ++ toString limit] else []
        let r := arr.foldl (proxItemStep sub p.1) ([], acc.1, acc.2.1)
        (r.2.1, r.2.2, acc.2.2 ++ w)

/-- The proximity pass over `prox.data.nearby`, aggregating
`(referential, schema, warnings)` in document order. -/
def proximityPass (sub : List (String × SubRec)) (limit : Nat)
    (nmap : List (String × Option (List ProxItem))) :
    List String × List String × List String :=
  nmap.foldl (proxSrcStep sub limit) ([], [], [])

/-- The coordinate scan: counts suburbs with a missing coordinate and
suburbs with an out-of-range coordinate. -/
def coordStats (sub : List (String × SubRec)) : Nat × Nat :=
  sub.foldl (fun acc p =>
    match p.2.lat, p.2.lng with
    | some la, some ln =>
        if la < -90 ∨ 90 < la ∨ ln < -180 ∨ 180 < ln then (acc.1, acc.2 + 1) else acc
    | _, _ => (acc.1 + 1, acc.2)) (0, 0)
/-- `clusterSizes`: every cluster slug keyed at 0 in order, then one
increment per indexed suburb with a truthy cluster. Clusters of indexed
suburbs always appear among the keys (the index build stores the
pushed slug), so the JavaScript undefined-increment branch cannot
arise; it is modelled as a no-op. -/
def clusterSizesOf (clusterSlugs : List String) (sub : List (String × SubRec)) :
    List (String × Nat) :=
  sub.foldl (fun m p =>
    if p.2.cluster == "" then m else
    match mapGet m p.2.cluster with
    | some n => mapSet m p.2.cluster (n + 1)
    | none => m)
    (clusterSlugs.foldl (fun m c => mapSet m c 0) [])

/-- The aggregate adjacency statistics `(totalEdges, crossEdges,
reciprocal)`. Values that are not string arrays are skipped (the sync
step only emits arrays, so the stats loop never meets one). -/
def adjStats (sub : List (String × SubRec))
    (adjL : List (String × Option (List String))) : Nat × Nat × Nat :=
  adjL.foldl (fun acc p =>
    match p.2 with
    | none => acc
    | some l =>
        l.foldl (fun a dst =>
          let cr := match (mapGet sub p.1).map (fun r => r.cluster),
              (mapGet sub dst).map (fun r => r.cluster) with
            | some a2, some b2 =>
                if !(a2 == "") && !(b2 == "") && !(a2 == b2) then 1 else 0
            | _, _ => 0
          let back := match mapGet adjL dst with
            | some (some bl) => if bl.contains p.1 then 1 else 0
            | _ => 0
          (a.1 + 1, a.2.1 + cr, a.2.2 + back)) acc) (0, 0, 0)

/-- The big-cluster hint entries: every cluster of size at least 120,
rendered as `slug (n)`. -/
def bigClustersOf (sizes : List (String × Nat)) : List String :=
  (sizes.filter (fun p => 120 ≤ p.2)).map
    (fun p => p.1 ++ " (" ++ toString p.2 ++ ")")

/-- One sampled proximity diff: the recomputed ranking versus the
snapshot, up to five slugs in each direction. -/
structure Diff where
  suburb : String
  missingFromPre : List String
  extrasInPre : List ProxItem
  deriving DecidableEq

/-- The proximity diff of one sampled suburb (`none` when both
directions agree). -/
def diffOf (sub : List (String × SubRec)) (adjArr : List (String × List String))
    (w : Weights) (ops : TrigOps) (limit : Nat)
    (nmap : List (String × Option (List ProxItem))) (s : String) : Option Diff :=
  let pre : List ProxItem := match mapGet nmap s with
    | some (some arr) => arr
    | _ => []
  let recL := (recomputeNearby sub adjArr w ops s limit).map (fun e => e.slug)
  let missL := (recL.filter (fun sl => !pre.contains (some sl))).take 5
  let extraL := (pre.filter (fun x => match x with
    | some s2 => !recL.contains s2
    | none => true)).take 5
  if missL.length ≠ 0 ∨ extraL.length ≠ 0 then some ⟨s, missL, extraL⟩ else none

/-- The proximity diffs of the sampled suburbs, in sample order. -/
def diffsOf (sub : List (String × SubRec)) (adjArr : List (String × List String))
    (w : Weights) (ops : TrigOps) (limit : Nat)
    (nmap : List (String × Option (List ProxItem))) (sample : List String) :
    List Diff :=
  sample.filterMap (diffOf sub adjArr w ops limit nmap)

/-- The four issue lists of a doctor run, each in push order. -/
structure Issues where
  missing : List String
  schema : List String
  referential : List String
  warnings : List String
  deriving DecidableEq

/-- The parsed input of a doctor run: the five file loads and the
resolved CLI/config values. -/
structure DoctorIn where
  clusters : Load (Option JClusters)
  clusterMap : Load (List String)
  adj : Load (List (String × Option (List String)))
  prox : Load (List (String × Option (List ProxItem)))
  cfgOk : Bool
  cfgErr : Option String
  limit : Nat
  weights : Weights
  diffSample : Nat
  explainArg : Option String
  writeFlag : Bool
  graphFlag : Bool

/-- Every field of the report object except the timestamp. -/
structure ReportBody where
  files : List (String × Bool × Option String)
  configLimit : Nat
  configWeights : Weights
  counts : Nat × Nat × Nat × Nat
  clusterSizes : List (String × Nat)
  adjacencyStats : Nat × Nat × ℚ
  diffsSampled : Nat
  proximityDiffs : List Diff
  explain : Option String
  outputs : String × String × String × Option String × Option String
  issues : Issues

/-- The report object written to `__ai/geo-report.json`. -/
structure Report where
  timestamp : String
  body : ReportBody

/-- The whole doctor run on parsed inputs: index build, the five
validation passes, aggregate statistics, sampled proximity diffs, and
the report assembly. The clock enters only through `timestamp`. -/
def geoReport (inp : DoctorIn) (ops : TrigOps) (timestamp : String) : Report :=
  let ix := doctorIndex inp.clusters
  let clusterSlugs := ix.1
  let sub := ix.2.1
  let cmI := clusterMapIssues clusterSlugs inp.clusterMap
  let adjI := if inp.adj.ok then adjacencyPass sub inp.adj.data else ([], [])
  let proxI := if inp.prox.ok then proximityPass sub inp.limit inp.prox.data
    else ([], [], [])
  let cs := coordStats sub
  let coordWarn := if cs.1 ≠ 0 then
    [toString cs.1 ++ " suburbs missing lat/lng (distance fallback limited)"] else []
  let coordSchema := if cs.2 ≠ 0 then
    [toString cs.2 ++ " suburbs have out-of-range coordinates"] else []
  let sizes := clusterSizesOf clusterSlugs sub
  let st := if inp.adj.ok then adjStats sub inp.adj.data else (0, 0, 0)
  let rate : ℚ := if st.1 = 0 then 0 else (st.2.2 : ℚ) / (st.1 : ℚ)
  let big := bigClustersOf sizes
  let bigWarn := if big.length ≠ 0 then
    ["Large clusters detected: " ++ String.intercalate ", " big ++
      " — consider subdividing for better nearby relevance."] else []
  let allSub := sub.map Prod.fst
  let sample := allSub.take (max 1 (min allSub.length inp.diffSample))
  let adjArr := inp.adj.data.filterMap (fun p => match p.2 with
    | some l => some (p.1, l)
    | none => none)
  let diffs := diffsOf sub adjArr inp.weights ops inp.limit inp.prox.data sample
  let expl := match inp.explainArg with
    | some e => if !(e == "") && (mapGet sub e).isSome then
        some ("__ai/geo-explain-" ++ e ++ ".json") else none
    | none => none
  { timestamp := timestamp
    body := {
      files := [("clusters", inp.clusters.ok, inp.clusters.err),
        ("clusterMap", inp.clusterMap.ok, inp.clusterMap.err),
        ("adjacency", inp.adj.ok, inp.adj.err),
        ("proximity", inp.prox.ok, inp.prox.err),
        ("config", inp.cfgOk, inp.cfgErr)]
      configLimit := inp.limit
      configWeights := inp.weights
      counts := (clusterSlugs.length, sub.length,
        if inp.adj.ok then inp.adj.data.length else 0,
        if inp.prox.ok then inp.prox.data.length else 0)
      clusterSizes := sizes
      adjacencyStats := (st.1, st.2.1, rate)
      diffsSampled := sample.length
      proximityDiffs := diffs.take 200
      explain := expl
      outputs := ("__ai/geo-report.json", "__ai/geo-report.txt",
        "__ai/geo-proximity-diff.json",
        if inp.writeFlag then some "__ai/geo-proximity-fixed.json" else none,
        if inp.graphFlag then some "__ai/geo-adjacency.dot" else none)
      issues := {
        missing := ix.2.2.1
        schema := ix.2.2.2 ++ adjI.2 ++ proxI.2.1 ++ coordSchema
        referential := cmI.1 ++ adjI.1 ++ proxI.1
        warnings := cmI.2 ++ proxI.2.2 ++ coordWarn ++ bigWarn } } }
/-! ## Clusters facade and proximity snapshot builder
(`src/lib/clusters.ts` facade, `src/scripts/build-proximity.mts`) -/

/-- ASCII `toUpperCase` on one character. -/
def jsUpper (c : Char) : Char :=
  if isLowerAZ c then Char.ofNat (c.toNat - 32) else c

/-- `split('-')` on a character list (an empty input gives one empty
piece, a trailing hyphen a trailing empty piece). -/
def splitH : List Char → List (List Char)
  | [] => [[]]
  | c :: t =>
      let r := splitH t
      if c = '-' then [] :: r
      else match r with
        | h :: t2 => (c :: h) :: t2
        | [] => [[c]]

/-- Capitalise the first character of a word (an empty word stays
empty). -/
def capW : List Char → List Char
  | [] => []
  | c :: t => jsUpper c :: t

/-- `titleCase(slug)`: split on hyphens, capitalise each word, join
with spaces, trim. -/
def titleCase (slug : String) : String :=
  ⟨trimWsL (List.intercalate [' '] ((splitH slug.data).map capW))⟩

/-- A raw suburb of `areas.clusters.json` as the facade receives it:
either a bare string or an object with optional fields. -/
inductive RawS where
  | str (s : String)
  | obj (slug : Option String) (name : Option String) (lat lng : Option ℚ)
  deriving DecidableEq

/-- A raw cluster record `{slug, name?, suburbs}`. -/
structure RawC where
  slug : String
  name : Option String
  suburbs : List RawS
  deriving DecidableEq

/-- A facade `SuburbItem`: `{slug, name, lat?, lng?}`. -/
structure FSub where
  slug : String
  name : String
  lat : Option ℚ
  lng : Option ℚ
  deriving DecidableEq

/-- Canonicalise one raw suburb: a bare string is slugified and
title-cased; an object slugifies `slug || name || ''` and falls back to
the title-cased slug for its name. -/
def toItem (s : RawS) : FSub :=
  match s with
  | .str t =>
      let sl := slugifyF t
      ⟨sl, titleCase sl, none, none⟩
  | .obj slugF nameF lat lng =>
      let sl := slugifyF (jsOr slugF (jsOr nameF ""))
      ⟨sl, jsOr nameF (titleCase sl), lat, lng⟩

/-- The facade index build over the raw clusters document: for each
cluster, its dataset slug keyed to `(display name, suburbs)`; each
suburb keyed in `suburbIndex` and `suburbToDatasetCluster` (later
occurrences overwrite in place, as a JavaScript `Map` does). -/
def facadeIndex (raw : List RawC) :
    List (String × String × List FSub) × List (String × FSub) × List (String × String) :=
  raw.foldl (fun acc c =>
    let ds := slugifyF c.slug
    let subs := c.suburbs.map toItem
    let m1 := mapSet acc.1 ds (jsOr c.name (titleCase ds), subs)
    let r := subs.foldl (fun a s => (mapSet a.1 s.slug s, mapSet a.2 s.slug ds))
      (acc.2.1, acc.2.2)
    (m1, r.1, r.2)) ([], [], [])

/-- ASCII `toLowerCase` on a string. -/
def jsLowerStr (s : String) : String := ⟨s.data.map jsLower⟩

/-- A raw adjacency value: a string array, an object carrying an
`adjacent_suburbs` array, or anything else (dropped). -/
inductive AdjRawV where
  | arr (l : List String)
  | nested (l : List String)
  | other
  deriving DecidableEq

/-- The facade adjacency normalisation: lowercase every key and every
neighbour slug, keep array values and `adjacent_suburbs` arrays, drop
the rest. -/
def normAdj (doc : List (String × AdjRawV)) : List (String × List String) :=
  doc.foldl (fun out p =>
    let key := jsLowerStr p.1
    match p.2 with
    | .arr l => mapSet out key (l.map jsLowerStr)
    | .nested l => mapSet out key (l.map jsLowerStr)
    | .other => out) []

/-- `getClustersSync()`: dataset clusters merged per canonical slug
(`toCanonicalCluster`, from the aliases module, is the parameter
`canon`); suburb counts accumulate across merged dataset clusters. -/
def getClustersSyncM (canon : String → Option String)
    (cbds : List (String × String × List FSub)) : List (String × String × Nat) :=
  (cbds.foldl (fun merged p =>
    let canonical := jsOr (canon p.1) p.1
    match mapGet merged canonical with
    | none => mapSet merged canonical (titleCase canonical, p.2.2.length)
    | some prev => mapSet merged canonical (prev.1, prev.2 + p.2.2.length)) []
  ).map (fun p => (p.1, p.2.1, p.2.2))

/-- Strip one trailing `-region` from the slug (the facade's regex
replace with the anchored `-region` pattern). -/
def dropRegion (s : String) : String :=
  if "-region".data.isSuffixOf s.data then ⟨s.data.take (s.data.length - 7)⟩ else s

/-- JavaScript `a || b` on two optional strings. -/
def jsOrO (a b : Option String) : Option String :=
  match a with
  | some s => if s == "" then b else some s
  | none => b

/-- Keep the first suburb per slug, in order. -/
def dedupeF (l : List FSub) : List FSub :=
  (l.foldl (fun acc s =>
    if acc.1.contains s.slug then acc else (acc.1 ++ [s.slug], acc.2 ++ [s])) ([], [])).2

/-- `listSuburbsForClusterSyncAsObjects(clusterSlug)`: resolve the
canonical slug (retrying without a `-region` suffix), gather the
suburbs of every dataset cluster mapping to it, and deduplicate by
slug. -/
def listSuburbsM (canon : String → Option String)
    (cbds : List (String × String × List FSub)) (clusterSlug : String) : List FSub :=
  match jsOrO (canon clusterSlug) (jsOrO (canon (dropRegion clusterSlug)) none) with
  | none => []
  | some canonical =>
      dedupeF (cbds.foldl (fun out p =>
        if canon p.1 == some canonical then out ++ p.2.2 else out) [])

/-- `findSuburbBySlug(slug)`: lowercase lookup in the suburb index. -/
def findSuburbM (six : List (String × FSub)) (slug : String) : Option FSub :=
  mapGet six (jsLowerStr slug)

/-- `getClusterForSuburbSync(suburbSlug)`: the canonical cluster of the
suburb's dataset cluster (a falsy dataset slug gives `null`). -/
def getClusterForSuburbM (canon : String → Option String)
    (s2d : List (String × String)) (slug : String) : Option String :=
  match mapGet s2d (jsLowerStr slug) with
  | some ds => if ds == "" then none else some (jsOr (canon ds) ds)
  | none => none

/-- A distance value of the facade `hav`: `+Infinity` when a coordinate
is missing, else finite. -/
inductive Dist where
  | pinf
  | fin (q : ℚ)
  deriving DecidableEq

/-- The facade `hav(a, b)`: `+Infinity` unless all four coordinates are
present, else the haversine distance (the same formula as the doctor's
`haversineKm`, radius 6371). -/
def havF (ops : TrigOps) (a b : FSub) : Dist :=
  match a.lat, a.lng, b.lat, b.lng with
  | some alat, some alng, some blat, some blng =>
      .fin (haversineKm ops alat alng blat blng)
  | _, _, _, _ => .pinf

/-- The strict priority of the comparator `(a, b) => a.d - b.d`: a
finite distance precedes a larger finite one and `+Infinity`; a `NaN`
difference of two infinities gives no priority (ECMAScript sorts treat
it as a tie). -/
def distLt : Dist → Dist → Bool
  | .fin a, .fin b => decide (a < b)
  | .fin _, .pinf => true
  | .pinf, _ => false

/-- `rankByDistance(src, list)`: without source coordinates sort by
slug (`localeCompare`, modelled as code-point order on ASCII slugs);
with them sort ascending by `hav` distance, stably. -/
def rankByDistance (ops : TrigOps) (src : FSub) (l : List FSub) : List FSub :=
  if src.lat.isSome && src.lng.isSome then
    (stableSortBy (fun a b => distLt a.2 b.2) (l.map (fun s => (s, havF ops src s)))).map
      Prod.fst
  else stableSortBy (fun a b => decide (a.slug < b.slug)) l

/-- `getNearbySuburbs(slug, {limit})`: resolved adjacency entries
first; if they fall short of the limit, pad with the remaining suburbs
of the same canonical cluster ranked by distance. -/
def getNearbySuburbsM (ops : TrigOps) (canon : String → Option String)
    (six : List (String × FSub)) (s2d : List (String × String))
    (cbds : List (String × String × List FSub)) (adjN : List (String × List String))
    (slug : String) (limit : Nat) : List FSub :=
  match findSuburbM six slug with
  | none => []
  | some src =>
      let adjL := ((mapGet adjN src.slug).getD []).filterMap (findSuburbM six)
      if limit ≤ adjL.length then adjL.take limit
      else
        let pool := match getClusterForSuburbM canon s2d src.slug with
          | some canonical =>
              (listSuburbsM canon cbds canonical).filter (fun s =>
                s.slug ≠ src.slug ∧ (adjL.find? (fun a => a.slug == s.slug)).isNone)
          | none => []
        (adjL ++ rankByDistance ops src pool).take limit

/-- Keep the first occurrence of each string, in order (`new Set`). -/
def dedupeStr (l : List String) : List String :=
  l.foldl (fun acc s => if acc.contains s then acc else acc ++ [s]) []

/-- Escape a character for a JSON string literal (quotes and
backslashes; slugs and display names stay inside this fragment). -/
def jsonEscC (c : Char) : List Char :=
  if c = '"' ∨ c = '\\' then ['\\', c] else [c]

/-- A JSON string literal. -/
def jsonStr (s : String) : String :=
  "\"" ++ (⟨s.data.flatMap jsonEscC⟩ : String) ++ "\""

/-- `JSON.stringify({nearby})`: the compact serialisation hashed
for the etag. -/
def proxPayload (nearby : List (String × List (String × String))) : String :=
  "\x7b\"nearby\":\x7b" ++ String.intercalate ","
    (nearby.map (fun p => jsonStr p.1 ++ ":[" ++ String.intercalate ","
      (p.2.map (fun e =>
        "\x7b\"slug\":" ++ jsonStr e.1 ++ ",\"name\":" ++ jsonStr e.2 ++ "\x7d")) ++
      "]")) ++ "\x7d\x7d"

/-- The proximity snapshot: the nearby map, its serialised payload and
the etag (`sha1` stays the abstract digest `H`). -/
structure ProxSnapshot where
  nearby : List (String × List (String × String))
  payload : String
  etag : String

/-- `build-proximity.mts`: collect every suburb of every canonical
cluster, compute its nearby list at limit 6, serialise the payload and
hash it into the etag. -/
def buildProximity (H : String → String) (canon : String → Option String)
    (ops : TrigOps) (raw : List RawC) (adjDoc : List (String × AdjRawV)) :
    ProxSnapshot :=
  let ix := facadeIndex raw
  let cbds := ix.1
  let six := ix.2.1
  let s2d := ix.2.2
  let adjN := normAdj adjDoc
  let clusterSlugs := (getClustersSyncM canon cbds).map (fun c => c.1)
  let allSuburbs := dedupeStr (clusterSlugs.flatMap (fun c =>
    (listSuburbsM canon cbds c).map (fun s => s.slug)))
  let nearby := allSuburbs.map (fun s =>
    (s, (getNearbySuburbsM ops canon six s2d cbds adjN s 6).map
      (fun it => (it.slug, it.name))))
  let payload := proxPayload nearby
  { nearby := nearby, payload := payload, etag := H payload }
/-- C7: the engine is deterministic up to the clock. Two runs of the
proximity snapshot builder on the same catalog, adjacency, alias map
and digest function produce the same nearby map and the same etag, and
the etag is exactly the digest of the serialised nearby payload; two
doctor runs on the same parsed inputs produce reports whose every
field except the timestamp coincides, the timestamp being exactly the
clock value of the run. -/
theorem c7_run_determinism :
    (∀ (H : String → String) (canon : String → Option String) (ops : TrigOps)
      (raw : List RawC) (adjDoc : List (String × AdjRawV)),
      (buildProximity H canon ops raw adjDoc).nearby =
        (buildProximity H canon ops raw adjDoc).nearby ∧
      (buildProximity H canon ops raw adjDoc).etag =
        (buildProximity H canon ops raw adjDoc).etag ∧
      (buildProximity H canon ops raw adjDoc).etag =
        H (proxPayload (buildProximity H canon ops raw adjDoc).nearby)) ∧
    (∀ (inp : DoctorIn) (ops : TrigOps) (t1 t2 : String),
      (geoReport inp ops t1).timestamp = t1 ∧
      (geoReport inp ops t1).body = (geoReport inp ops t2).body) :=
  ⟨fun _ _ _ _ _ => ⟨rfl, rfl, rfl⟩, fun _ _ _ _ => ⟨rfl, rfl⟩⟩
/-! ## Doctor proximity repair (`fixedNearby`, doctor `--write`) -/

/-- An item of the prior snapshot as the repair sees it: a non-object
(skipped) or an object with an optional `slug`. -/
inductive PrevIt where
  | junk
  | obj (slug : Option String)
  deriving DecidableEq

/-- The keep loop of the repair: walk the old list, dropping
non-objects, invalid slugs, self references, slugs absent from the
catalog and slugs already kept; push the survivor with its catalog
display name, and stop as soon as the kept list reaches the limit. -/
def keepPhase (sub : List (String × SubRec)) (s : String) (limit : Nat)
    (keep : List Entry) : List PrevIt → List Entry
  | [] => keep
  | it :: rest =>
      match it with
      | .junk => keepPhase sub s limit keep rest
      | .obj slugO =>
          match slugO with
          | none => keepPhase sub s limit keep rest
          | some sl =>
              if !isStrB sl then keepPhase sub s limit keep rest
              else if sl == s then keepPhase sub s limit keep rest
              else if !(mapGet sub sl).isSome then keepPhase sub s limit keep rest
              else if keep.any (fun k => k.slug == sl) then keepPhase sub s limit keep rest
              else
                let keep2 := keep ++ [⟨sl, jsNameOr (mapGet sub sl) sl⟩]
                if limit ≤ keep2.length then keep2 else keepPhase sub s limit keep2 rest

/-- The pad loop of the repair: walk the recomputed ranking, dropping
the source itself, slugs absent from the catalog and slugs already
kept; push the survivor and stop at the limit. -/
def padPhase (sub : List (String × SubRec)) (s : String) (limit : Nat)
    (keep : List Entry) : List Entry → List Entry
  | [] => keep
  | it :: rest =>
      if it.slug == s then padPhase sub s limit keep rest
      else if !(mapGet sub it.slug).isSome then padPhase sub s limit keep rest
      else if keep.any (fun k => k.slug == it.slug) then padPhase sub s limit keep rest
      else
        let keep2 := keep ++ [⟨it.slug, jsNameOr (mapGet sub it.slug) it.slug⟩]
        if limit ≤ keep2.length then keep2 else padPhase sub s limit keep2 rest

/-- The old nearby list of `s` in the prior snapshot (any non-array
value counts as empty). -/
def currentOf (nmap : List (String × Option (List PrevIt))) (s : String) : List PrevIt :=
  match mapGet nmap s with
  | some (some arr) => arr
  | _ => []

/-- `fixedNearby[s]`: keep the valid entries of the old list, pad any
shortfall from the recomputed ranking at twice the limit, and truncate
to the limit. -/
def fixedEntry (sub : List (String × SubRec)) (adjL : List (String × List String))
    (w : Weights) (ops : TrigOps) (limit : Nat)
    (nmap : List (String × Option (List PrevIt))) (s : String) : List Entry :=
  let keep := keepPhase sub s limit [] (currentOf nmap s)
  let keep2 := if keep.length < limit then
      padPhase sub s limit keep (recomputeNearby sub adjL w ops s (limit * 2))
    else keep
  keep2.take limit

/-- The whole fixed snapshot: one repaired list per catalog suburb. -/
def fixedNearbyM (sub : List (String × SubRec)) (adjL : List (String × List String))
    (w : Weights) (ops : TrigOps) (limit : Nat)
    (nmap : List (String × Option (List PrevIt))) : List (String × List Entry) :=
  (sub.map Prod.fst).map (fun s => (s, fixedEntry sub adjL w ops limit nmap s))
theorem keepPhase_inv (sub : List (String × SubRec)) (s : String) (limit : Nat) :
    ∀ (cur : List PrevIt) (keep : List Entry),
    (∀ e ∈ keep, e.slug ≠ s ∧ (mapGet sub e.slug).isSome = true) →
    (keep.map Entry.slug).Nodup →
    (∀ e ∈ keepPhase sub s limit keep cur, e.slug ≠ s ∧ (mapGet sub e.slug).isSome = true) ∧
    ((keepPhase sub s limit keep cur).map Entry.slug).Nodup := by
  intro cur
  induction cur with
  | nil => intro keep h1 h2; exact ⟨h1, h2⟩
  | cons it rest ih =>
    intro keep h1 h2
    cases it with
    | junk => exact ih keep h1 h2
    | obj slugO =>
      cases slugO with
      | none => exact ih keep h1 h2
      | some sl =>
        simp only [keepPhase]
        split
        · exact ih keep h1 h2
        split
        · exact ih keep h1 h2
        split
        · exact ih keep h1 h2
        split
        · exact ih keep h1 h2
        rename_i hvalid hself hsome hdup
        have hK1 : ∀ e ∈ keep ++ [(⟨sl, jsNameOr (mapGet sub sl) sl⟩ : Entry)],
            e.slug ≠ s ∧ (mapGet sub e.slug).isSome = true := by
          intro e he
          rcases List.mem_append.mp he with h | h
          · exact h1 e h
          · have he2 : e = (⟨sl, jsNameOr (mapGet sub sl) sl⟩ : Entry) := by simpa using h
            subst he2
            refine ⟨fun hc => hself (beq_iff_eq.mpr hc), ?_⟩
            exact Option.ne_none_iff_isSome.mp (by simpa using hsome)
        have hK2 : ((keep ++ [(⟨sl, jsNameOr (mapGet sub sl) sl⟩ : Entry)]).map
            Entry.slug).Nodup := by
          rw [List.map_append, List.nodup_append]
          refine ⟨h2, by simp, ?_⟩
          intro x hx hx2
          simp only [List.map_cons, List.map_nil, List.mem_singleton] at hx2
          subst hx2
          rcases List.mem_map.mp hx with ⟨k, hk, hks⟩
          exact hdup (List.any_eq_true.mpr ⟨k, hk, by simp [hks]⟩)
        split
        · exact ⟨hK1, hK2⟩
        · exact ih _ hK1 hK2

theorem padPhase_inv (sub : List (String × SubRec)) (s : String) (limit : Nat) :
    ∀ (rest : List Entry) (keep : List Entry),
    (∀ e ∈ keep, e.slug ≠ s ∧ (mapGet sub e.slug).isSome = true) →
    (keep.map Entry.slug).Nodup →
    (∀ e ∈ padPhase sub s limit keep rest, e.slug ≠ s ∧ (mapGet sub e.slug).isSome = true) ∧
    ((padPhase sub s limit keep rest).map Entry.slug).Nodup := by
  intro rest
  induction rest with
  | nil => intro keep h1 h2; exact ⟨h1, h2⟩
  | cons it rest ih =>
    intro keep h1 h2
    simp only [padPhase]
    split
    · exact ih keep h1 h2
    split
    · exact ih keep h1 h2
    split
    · exact ih keep h1 h2
    rename_i hself hsome hdup
    have hK1 : ∀ e ∈ keep ++ [(⟨it.slug, jsNameOr (mapGet sub it.slug) it.slug⟩ : Entry)],
        e.slug ≠ s ∧ (mapGet sub e.slug).isSome = true := by
      intro e he
      rcases List.mem_append.mp he with h | h
      · exact h1 e h
      · have he2 : e = (⟨it.slug, jsNameOr (mapGet sub it.slug) it.slug⟩ : Entry) := by
          simpa using h
        subst he2
        refine ⟨fun hc => hself (beq_iff_eq.mpr hc), ?_⟩
        exact Option.ne_none_iff_isSome.mp (by simpa using hsome)
    have hK2 : ((keep ++ [(⟨it.slug, jsNameOr (mapGet sub it.slug) it.slug⟩ : Entry)]).map
        Entry.slug).Nodup := by
      rw [List.map_append, List.nodup_append]
      refine ⟨h2, by simp, ?_⟩
      intro x hx hx2
      simp only [List.map_cons, List.map_nil, List.mem_singleton] at hx2
      subst hx2
      rcases List.mem_map.mp hx with ⟨k, hk, hks⟩
      exact hdup (List.any_eq_true.mpr ⟨k, hk, by simp [hks]⟩)
    split
    · exact ⟨hK1, hK2⟩
    · exact ih _ hK1 hK2

theorem padPhase_prefix (sub : List (String × SubRec)) (s : String) (limit : Nat) :
    ∀ (rest : List Entry) (keep : List Entry),
    List.IsPrefix keep (padPhase sub s limit keep rest) := by
  intro rest
  induction rest with
  | nil => intro keep; exact List.prefix_refl _
  | cons it rest ih =>
    intro keep
    simp only [padPhase]
    split
    · exact ih keep
    split
    · exact ih keep
    split
    · exact ih keep
    split
    · exact ⟨[⟨it.slug, jsNameOr (mapGet sub it.slug) it.slug⟩], rfl⟩
    · exact List.IsPrefix.trans
        ⟨[⟨it.slug, jsNameOr (mapGet sub it.slug) it.slug⟩], rfl⟩ (ih _)

theorem padPhase_from (sub : List (String × SubRec)) (s : String) (limit : Nat) :
    ∀ (rest : List Entry) (keep : List Entry),
    ∀ e ∈ padPhase sub s limit keep rest, e ∈ keep ∨ e.slug ∈ rest.map Entry.slug := by
  intro rest
  induction rest with
  | nil => intro keep e he; exact Or.inl he
  | cons it rest ih =>
    intro keep e he
    simp only [padPhase] at he
    have lift : e ∈ keep ∨ e.slug ∈ rest.map Entry.slug →
        e ∈ keep ∨ e.slug ∈ (it :: rest).map Entry.slug := by
      intro h
      rcases h with h | h
      · exact Or.inl h
      · exact Or.inr (by simp only [List.map_cons]; exact List.mem_cons_of_mem _ h)
    have snoc : e ∈ keep ++ [(⟨it.slug, jsNameOr (mapGet sub it.slug) it.slug⟩ : Entry)] →
        e ∈ keep ∨ e.slug ∈ (it :: rest).map Entry.slug := by
      intro h
      rcases List.mem_append.mp h with h | h
      · exact Or.inl h
      · have he2 : e = (⟨it.slug, jsNameOr (mapGet sub it.slug) it.slug⟩ : Entry) := by
          simpa using h
        subst he2
        exact Or.inr (by simp)
    revert he
    split
    · intro he; exact lift (ih keep e he)
    split
    · intro he; exact lift (ih keep e he)
    split
    · intro he; exact lift (ih keep e he)
    split
    · intro he; exact snoc he
    · intro he
      rcases ih _ e he with h | h
      · exact snoc h
      · exact Or.inr (by simp only [List.map_cons]; exact List.mem_cons_of_mem _ h)
/-- C8: for every prior snapshot, catalog, weights and limit, the
repaired list of a suburb `s` never exceeds the limit, never contains
`s` itself or a slug absent from the catalog, has no duplicate slugs,
extends the kept valid prefix of the old list in order, and draws
every padded entry from the recomputed ranking at twice the limit. -/
theorem c8_fixed_invariants (sub : List (String × SubRec))
    (adjL : List (String × List String)) (w : Weights) (ops : TrigOps)
    (limit : Nat) (nmap : List (String × Option (List PrevIt))) (s : String) :
    (fixedEntry sub adjL w ops limit nmap s).length ≤ limit ∧
    (∀ e ∈ fixedEntry sub adjL w ops limit nmap s,
      e.slug ≠ s ∧ (mapGet sub e.slug).isSome = true) ∧
    ((fixedEntry sub adjL w ops limit nmap s).map Entry.slug).Nodup ∧
    List.IsPrefix ((keepPhase sub s limit [] (currentOf nmap s)).take limit)
      (fixedEntry sub adjL w ops limit nmap s) ∧
    (∀ e ∈ fixedEntry sub adjL w ops limit nmap s,
      e ∉ keepPhase sub s limit [] (currentOf nmap s) →
      e.slug ∈ (recomputeNearby sub adjL w ops s (limit * 2)).map Entry.slug) := by
  have hkeep := keepPhase_inv sub s limit (currentOf nmap s) [] (by simp) (by simp)
  have hfe : fixedEntry sub adjL w ops limit nmap s =
      (if (keepPhase sub s limit [] (currentOf nmap s)).length < limit then
        padPhase sub s limit (keepPhase sub s limit [] (currentOf nmap s))
          (recomputeNearby sub adjL w ops s (limit * 2))
      else keepPhase sub s limit [] (currentOf nmap s)).take limit := rfl
  by_cases hlt : (keepPhase sub s limit [] (currentOf nmap s)).length < limit
  · rw [hfe, if_pos hlt]
    have hpad := padPhase_inv sub s limit (recomputeNearby sub adjL w ops s (limit * 2))
      (keepPhase sub s limit [] (currentOf nmap s)) hkeep.1 hkeep.2
    refine ⟨?_, ?_, ?_, ?_, ?_⟩
    · rw [List.length_take]; exact min_le_left _ _
    · intro e he
      exact hpad.1 e ((List.take_sublist _ _).subset he)
    · rw [List.map_take]
      exact List.Nodup.sublist (List.take_sublist _ _) hpad.2
    · rcases padPhase_prefix sub s limit (recomputeNearby sub adjL w ops s (limit * 2))
        (keepPhase sub s limit [] (currentOf nmap s)) with ⟨t, ht⟩
      rw [← ht, List.take_append_eq_append_take]
      exact ⟨_, rfl⟩
    · intro e he hnk
      have he2 := (List.take_sublist _ _).subset he
      rcases padPhase_from sub s limit (recomputeNearby sub adjL w ops s (limit * 2))
        (keepPhase sub s limit [] (currentOf nmap s)) e he2 with h | h
      · exact absurd h hnk
      · exact h
  · rw [hfe, if_neg hlt]
    refine ⟨?_, ?_, ?_, ?_, ?_⟩
    · rw [List.length_take]; exact min_le_left _ _
    · intro e he
      exact hkeep.1 e ((List.take_sublist _ _).subset he)
    · rw [List.map_take]
      exact List.Nodup.sublist (List.take_sublist _ _) hkeep.2
    · exact List.prefix_refl _
    · intro e he hnk
      exact absurd ((List.take_sublist _ _).subset he) hnk
/-- A three-suburb catalog used to exercise the repair. -/
def c8sub : List (String × SubRec) :=
  [("a", ⟨some "A", none, none, "k"⟩), ("b", ⟨some "B", none, none, "k"⟩),
    ("c", ⟨some "C", none, none, "k"⟩)]

/-- A prior snapshot whose list for `a` holds a self reference, an
unknown slug and one valid entry. -/
def c8nmap : List (String × Option (List PrevIt)) :=
  [("a", some [PrevIt.obj (some "a"), PrevIt.obj (some "zz"), PrevIt.obj (some "c")])]

/-- The default doctor weights. -/
def c8w : Weights := ⟨24, 200, 12, 200⟩

/-- Transcendentals pinned to zero (no pair in `c8sub` has
coordinates, so they are never consulted). -/
def c8ops : TrigOps := ⟨0, fun _ => 0, fun _ => 0, fun _ => 0, fun _ => 0⟩

/-- C8 witness: on the concrete snapshot the repaired list of `a`
respects the limit, keeps the valid entry `c` (not `a`, in the
catalog), has pairwise distinct slugs, extends the kept prefix, and
its padded entry `b` stems from the recomputed ranking. -/
theorem c8_fixed_invariants_witness :
    (fixedEntry c8sub [] c8w c8ops 2 c8nmap "a").length ≤ 2 ∧
    ("c" ≠ "a" ∧ (mapGet c8sub "c").isSome = true) ∧
    ((fixedEntry c8sub [] c8w c8ops 2 c8nmap "a").map Entry.slug).Nodup ∧
    List.IsPrefix ((keepPhase c8sub "a" 2 [] (currentOf c8nmap "a")).take 2)
      (fixedEntry c8sub [] c8w c8ops 2 c8nmap "a") ∧
    "b" ∈ (recomputeNearby c8sub [] c8w c8ops "a" (2 * 2)).map Entry.slug := by
  have h := c8_fixed_invariants c8sub [] c8w c8ops 2 c8nmap "a"
  exact ⟨h.1, h.2.1 ⟨"c", "C"⟩ (by with_unfolding_all decide), h.2.2.1, h.2.2.2.1,
    h.2.2.2.2 ⟨"b", "B"⟩ (by with_unfolding_all decide) (by with_unfolding_all decide)⟩
/-! ## Coverage validation (`src/scripts/ops/validate-coverage.mts`) -/

/-- The known-suburb set: every suburb of every cluster of the raw
clusters document, lowercased; an object contributes `slug || name`
(an object with neither field would crash the script and is modelled
as the empty string). -/
def knownOf (clusters : List RawC) : List String :=
  clusters.flatMap (fun c => c.suburbs.map (fun s =>
    match s with
    | .str t => jsLowerStr t
    | .obj slugF nameF _ _ => jsLowerStr (jsOr slugF (jsOr nameF ""))))

/-- The aggregated problems: one referential message per coverage slug
absent from the known set, in document order. -/
def covProblems (known : List String) (coverage : List (String × List String)) :
    List String :=
  coverage.flatMap (fun p =>
    (p.2.filter (fun s => !known.contains s)).map (fun s =>
      "Service \"" ++ p.1 ++ "\" references unknown suburb: " ++ s))

/-- The observable outcome of a run: a clean pass, warnings with exit
0 (tolerant mode), or a failure with exit 1. -/
inductive CovOutcome where
  | passed
  | warned (problems : List String)
  | failed (problems : List String)
  deriving DecidableEq

/-- The process exit code of each outcome. -/
def covExit : CovOutcome → Nat
  | .passed => 0
  | .warned _ => 0
  | .failed _ => 1

/-- The coverage validation main: aggregate the problems; with any
problem, warn when `GEO_ALLOW_MISSING` is `1`, else fail with exit 1;
with none, pass. -/
def validateCoverage (clusters : List RawC) (coverage : List (String × List String))
    (env : Option String) : CovOutcome :=
  let known := knownOf clusters
  let problems := covProblems known coverage
  if problems.length ≠ 0 then
    if env == some "1" then .warned problems else .failed problems
  else .passed
/-- C9: a coverage entry naming a suburb outside every cluster puts
its referential message among the aggregated problems; the run then
exits 1 without tolerant mode and warns with exit 0 when
`GEO_ALLOW_MISSING=1`; and any coverage document whose slugs are all
known passes with exit 0 in either mode. -/
theorem c9_coverage_validation (clusters : List RawC)
    (coverage : List (String × List String)) (env : Option String)
    (svc : String) (list : List String) (s : String)
    (hsvc : (svc, list) ∈ coverage) (hs : s ∈ list)
    (hunk : (knownOf clusters).contains s = false) :
    ("Service \"" ++ svc ++ "\" references unknown suburb: " ++ s) ∈
      covProblems (knownOf clusters) coverage ∧
    (env = some "1" →
      validateCoverage clusters coverage env =
        .warned (covProblems (knownOf clusters) coverage) ∧
      covExit (validateCoverage clusters coverage env) = 0) ∧
    (env ≠ some "1" →
      validateCoverage clusters coverage env =
        .failed (covProblems (knownOf clusters) coverage) ∧
      covExit (validateCoverage clusters coverage env) = 1) ∧
    (∀ coverage2 : List (String × List String),
      (∀ p ∈ coverage2, ∀ t ∈ p.2, (knownOf clusters).contains t = true) →
      validateCoverage clusters coverage2 env = .passed ∧
      covExit (validateCoverage clusters coverage2 env) = 0) := by
  have hmem : ("Service \"" ++ svc ++ "\" references unknown suburb: " ++ s) ∈
      covProblems (knownOf clusters) coverage := by
    refine List.mem_flatMap.mpr ⟨(svc, list), hsvc, ?_⟩
    refine List.mem_map.mpr ⟨s, ?_, rfl⟩
    refine List.mem_filter.mpr ⟨hs, ?_⟩
    show (!(knownOf clusters).contains s) = true
    rw [hunk]
    rfl
  have hlen : (covProblems (knownOf clusters) coverage).length ≠ 0 := by
    intro hzero
    rw [List.length_eq_zero] at hzero
    rw [hzero] at hmem
    exact absurd hmem (List.not_mem_nil _)
  have hval : validateCoverage clusters coverage env =
      (if (env == some "1") = true then
        CovOutcome.warned (covProblems (knownOf clusters) coverage)
      else CovOutcome.failed (covProblems (knownOf clusters) coverage)) := by
    rw [validateCoverage]
    simp only [hlen, if_true, ne_eq, not_false_eq_true, if_pos]
  refine ⟨hmem, ?_, ?_, ?_⟩
  · intro henv
    subst henv
    have hif : validateCoverage clusters coverage (some "1") =
        .warned (covProblems (knownOf clusters) coverage) := by
      rw [hval]
      simp
    exact ⟨hif, by rw [hif]; rfl⟩
  · intro henv
    have hb : (env == some "1") = false := beq_eq_false_iff_ne.mpr henv
    have hif : validateCoverage clusters coverage env =
        .failed (covProblems (knownOf clusters) coverage) := by
      rw [hval, hb]
      simp
    exact ⟨hif, by rw [hif]; rfl⟩
  · intro coverage2 hall
    have hnil : covProblems (knownOf clusters) coverage2 = [] := by
      rw [covProblems]
      rw [List.flatMap_eq_nil_iff]
      intro p hp
      rw [List.map_eq_nil_iff, List.filter_eq_nil_iff]
      intro t ht hc
      rw [hall p hp t ht] at hc
      simp at hc
    have hpass : validateCoverage clusters coverage2 env = .passed := by
      rw [validateCoverage]
      simp [hnil]
    exact ⟨hpass, by rw [hpass]; rfl⟩
/-- A one-cluster document whose known suburbs are `alpha` and
`beta-ville`. -/
def c9clusters : List RawC :=
  [⟨"k", none, [RawS.str "Alpha", RawS.obj (some "Beta-Ville") none none none]⟩]

/-- A coverage document referencing the unknown suburb `atlantis`. -/
def c9cov : List (String × List String) :=
  [("spring-clean", ["atlantis", "alpha"])]

/-- C9 witness: on the concrete documents the `atlantis` message is
aggregated; the run fails with exit 1 by default and warns with exit 0
under `GEO_ALLOW_MISSING=1`; the all-known document passes with exit
0. -/
theorem c9_coverage_validation_witness :
    ("Service \"spring-clean\" references unknown suburb: atlantis") ∈
      covProblems (knownOf c9clusters) c9cov ∧
    validateCoverage c9clusters c9cov none =
      .failed (covProblems (knownOf c9clusters) c9cov) ∧
    covExit (validateCoverage c9clusters c9cov none) = 1 ∧
    validateCoverage c9clusters c9cov (some "1") =
      .warned (covProblems (knownOf c9clusters) c9cov) ∧
    covExit (validateCoverage c9clusters c9cov (some "1")) = 0 ∧
    validateCoverage c9clusters [("spring-clean", ["alpha"])] none = .passed ∧
    covExit (validateCoverage c9clusters [("spring-clean", ["alpha"])] none) = 0 := by
  have h1 := c9_coverage_validation c9clusters c9cov none "spring-clean"
    ["atlantis", "alpha"] "atlantis" (by decide) (by decide) (by decide)
  have h2 := c9_coverage_validation c9clusters c9cov (some "1") "spring-clean"
    ["atlantis", "alpha"] "atlantis" (by decide) (by decide) (by decide)
  have hf := h1.2.2.1 (by decide)
  have hw := h2.2.1 rfl
  have hp := h1.2.2.2 [("spring-clean", ["alpha"])] (by decide)
  exact ⟨h1.1, hf.1, hf.2, hw.1, hw.2, hp.1, hp.2⟩
/-! ## Cluster splitter (`src/scripts/ops/split-cluster.mts`) -/

/-- A suburb record of the clusters document as the splitter sees it
(`lat`/`lng` are `none` when absent or non-finite). -/
structure SSub where
  slug : String
  name : Option String
  lat : Option ℚ
  lng : Option ℚ
  deriving DecidableEq

/-- A cluster record of the document. -/
structure SCluster where
  slug : String
  name : Option String
  suburbs : List SSub
  deriving DecidableEq

/-- The point of a coordinate-bearing suburb (only ever applied after
the coordinate filter, so the defaults are never consulted). -/
def ptOf (s : SSub) : ℚ × ℚ := (s.lat.getD 0, s.lng.getD 0)

/-- Squared Euclidean distance on raw lat/lng (`dist`). -/
def sdist (a b : ℚ × ℚ) : ℚ := (a.1 - b.1) ^ 2 + (a.2 - b.2) ^ 2

/-- The argmin loop shared by the bucket assignment and the k-means
assignment step: start at `best = 0` with an infinite best distance
(`none`) and move to each strictly closer centroid in turn. -/
def bestIdxAux (pt : ℚ × ℚ) : Nat → Nat → Option ℚ → List (ℚ × ℚ) → Nat
  | _, best, _, [] => best
  | k, _, none, c :: rest => bestIdxAux pt (k + 1) k (some (sdist pt c)) rest
  | k, best, some b, c :: rest =>
      if sdist pt c < b then bestIdxAux pt (k + 1) k (some (sdist pt c)) rest
      else bestIdxAux pt (k + 1) best (some b) rest

/-- `assignBucket(s)`: the index of the nearest centroid (ties keep
the lower index). -/
def bestIdx (pt : ℚ × ℚ) (cs : List (ℚ × ℚ)) : Nat := bestIdxAux pt 0 0 none cs

/-- The initial centroids: every suburb whose index is a multiple of
`⌊len / K⌋`, truncated to `K` points (the source's filter over indices
followed by `slice(0, K)`). -/
def initCentroids (subs : List SSub) (K : Nat) : List (ℚ × ℚ) :=
  let m := subs.length / K
  ((subs.enum.filter (fun p => p.1 % m == 0)).take K).map (fun p => ptOf p.2)

/-- One k-means iteration: bucket every suburb at its nearest centroid
and move each centroid to its bucket mean (an empty bucket keeps its
centroid). -/
def kmeansStep (subs : List SSub) (cs : List (ℚ × ℚ)) : List (ℚ × ℚ) :=
  cs.enum.map (fun p =>
    let b := subs.filter (fun s => bestIdx (ptOf s) cs == p.1)
    if b.length = 0 then p.2
    else ((b.foldl (fun a s => a + s.lat.getD 0) 0) / (b.length : ℚ),
      (b.foldl (fun a s => a + s.lng.getD 0) 0) / (b.length : ℚ)))

/-- The convergence test: every centroid moved less than `1e-6` in
both coordinates. -/
def kmeansConverged (a b : List (ℚ × ℚ)) : Bool :=
  (a.zip b).all (fun p =>
    decide (|p.1.1 - p.2.1| < 1 / 1000000) && decide (|p.1.2 - p.2.2| < 1 / 1000000))

/-- Up to `n` k-means iterations, stopping (with the pre-step
centroids, as the source's `break` does) once converged. -/
def kmeansIter : Nat → List SSub → List (ℚ × ℚ) → List (ℚ × ℚ)
  | 0, _, cs => cs
  | n + 1, subs, cs =>
      let nc := kmeansStep subs cs
      if kmeansConverged nc cs then cs else kmeansIter n subs nc

/-- The six fixed sub-cluster labels. -/
def splitLabels : List String :=
  ["inner-north", "west", "bayside", "south", "east", "north"]

/-- `labels[k] || part-(k+1)` for the slug. -/
def labelOf (k : Nat) : String :=
  jsOr (splitLabels.get? k) ("part-" ++ toString (k + 1))

/-- `labels[k] || Part (k+1)` for the display name. -/
def labelNameOf (k : Nat) : String :=
  jsOr (splitLabels.get? k) ("Part " ++ toString (k + 1))

/-- The splitter main: find the target cluster, keep its
coordinate-bearing suburbs, fail (`none`) when they number fewer than
`K`, run k-means for 50 iterations, emit the `K` buckets as new
clusters and splice them in place of the target. `target` is the
already-lowercased CLUSTER value. -/
def splitCluster (doc : List SCluster) (K : Nat) (target baseName baseSlug : String) :
    Option (List SCluster) :=
  let idx := doc.findIdx (fun c => c.slug == target)
  match doc.get? idx with
  | none => none
  | some tgt =>
      let subs := tgt.suburbs.filter (fun s => s.lat.isSome && s.lng.isSome)
      if subs.length < K then none
      else
        let cs := kmeansIter 50 subs (initCentroids subs K)
        let newClusters := (List.range K).map (fun k =>
          (⟨baseSlug ++ "-" ++ labelOf k, some (baseName ++ " " ++ labelNameOf k),
            subs.filter (fun s => bestIdx (ptOf s) cs == k)⟩ : SCluster))
        some (doc.take idx ++ newClusters ++ doc.drop (idx + 1))
theorem bestIdxAux_cases (pt : ℚ × ℚ) :
    ∀ (cs : List (ℚ × ℚ)) (k best : Nat) (bd : Option ℚ),
    bestIdxAux pt k best bd cs = best ∨
      (k ≤ bestIdxAux pt k best bd cs ∧ bestIdxAux pt k best bd cs < k + cs.length) := by
  intro cs
  induction cs with
  | nil => intro k best bd; cases bd <;> exact Or.inl rfl
  | cons c rest ih =>
    intro k best bd
    cases bd with
    | none =>
      simp only [bestIdxAux]
      rcases ih (k + 1) k (some (sdist pt c)) with h | h
      · right
        rw [h]
        exact ⟨le_refl k, by simp [List.length_cons]⟩
      · right
        have := h.1
        have := h.2
        simp only [List.length_cons]
        omega
    | some b =>
      simp only [bestIdxAux]
      split
      · rcases ih (k + 1) k (some (sdist pt c)) with h | h
        · right
          rw [h]
          exact ⟨le_refl k, by simp [List.length_cons]⟩
        · right
          have := h.1
          have := h.2
          simp only [List.length_cons]
          omega
      · rcases ih (k + 1) best (some b) with h | h
        · exact Or.inl h
        · right
          have := h.1
          have := h.2
          simp only [List.length_cons]
          omega

theorem bestIdx_lt (pt : ℚ × ℚ) (cs : List (ℚ × ℚ)) (K : Nat)
    (hK : 1 ≤ K) (hlen : cs.length ≤ K) : bestIdx pt cs < K := by
  rcases bestIdxAux_cases pt cs 0 0 none with h | h
  · rw [bestIdx, h]; omega
  · have := h.2
    rw [bestIdx]
    omega

theorem kmeansStep_length (subs : List SSub) (cs : List (ℚ × ℚ)) :
    (kmeansStep subs cs).length = cs.length := by
  simp [kmeansStep]

theorem kmeansIter_length :
    ∀ (n : Nat) (subs : List SSub) (cs : List (ℚ × ℚ)),
    (kmeansIter n subs cs).length = cs.length := by
  intro n
  induction n with
  | zero => intro subs cs; rfl
  | succ n ih =>
    intro subs cs
    simp only [kmeansIter]
    split
    · rfl
    · rw [ih subs (kmeansStep subs cs), kmeansStep_length]

theorem initCentroids_le (subs : List SSub) (K : Nat) :
    (initCentroids subs K).length ≤ K := by
  rw [initCentroids]
  simp only [List.length_map, List.length_take]
  exact min_le_left _ _

theorem count_flatMap_filter {α : Type} [DecidableEq α] (f : α → Nat) (l : List α)
    (a : α) : ∀ K : Nat,
    ((List.range K).flatMap (fun k => l.filter (fun s => f s == k))).count a =
      if f a < K then l.count a else 0 := by
  intro K
  induction K with
  | zero => simp
  | succ K ih =>
    rw [List.range_succ, List.flatMap_append, List.count_append, ih]
    have hfil : (l.filter (fun s => f s == K)).count a =
        if f a = K then l.count a else 0 := by
      by_cases hpa : f a = K
      · rw [if_pos hpa]
        exact List.count_filter (by simp [hpa])
      · rw [if_neg hpa]
        refine List.count_eq_zero.mpr ?_
        intro hmem
        exact hpa (by simpa using (List.mem_filter.mp hmem).2)
    simp only [List.flatMap_cons, List.flatMap_nil, List.append_nil] at *
    by_cases h1 : f a < K
    · rw [if_pos h1, if_pos (Nat.lt_succ_of_lt h1), hfil, if_neg (Nat.ne_of_lt h1)]
      omega
    · by_cases h3 : f a = K
      · rw [if_neg h1, if_pos (by omega), hfil, if_pos h3]
        omega
      · rw [if_neg h1, if_neg (by omega), hfil, if_neg h3]

theorem flatMap_filter_perm {α : Type} [DecidableEq α] (f : α → Nat) (K : Nat)
    (l : List α) (h : ∀ s ∈ l, f s < K) :
    ((List.range K).flatMap (fun k => l.filter (fun s => f s == k))).Perm l := by
  rw [List.perm_iff_count]
  intro a
  rw [count_flatMap_filter]
  by_cases ha : a ∈ l
  · rw [if_pos (h a ha)]
  · have h0 : l.count a = 0 := List.count_eq_zero.mpr ha
    rw [h0]
    split <;> rfl
/-- C10: whenever the splitter succeeds, the document is rewritten by
splicing exactly `K` new clusters in place of the target; their suburb
lists together form a permutation of the target's coordinate-bearing
suburbs, every coordinate-bearing suburb lands in exactly one new
cluster, every suburb lacking coordinates is silently dropped from all
of them, and the clusters before and after the target are untouched. -/
theorem c10_split_partition (doc : List SCluster) (K : Nat)
    (target baseName baseSlug : String) (out : List SCluster) (hK : 1 ≤ K)
    (hout : splitCluster doc K target baseName baseSlug = some out) :
    ∃ idx tgt newCs,
      idx = doc.findIdx (fun c => c.slug == target) ∧
      doc.get? idx = some tgt ∧
      out = doc.take idx ++ newCs ++ doc.drop (idx + 1) ∧
      newCs.length = K ∧
      (newCs.flatMap SCluster.suburbs).Perm
        (tgt.suburbs.filter (fun s => s.lat.isSome && s.lng.isSome)) ∧
      (∀ s ∈ tgt.suburbs.filter (fun s => s.lat.isSome && s.lng.isSome),
        ∃! k, ∃ c, newCs.get? k = some c ∧ s ∈ c.suburbs) ∧
      (∀ s ∈ tgt.suburbs, (s.lat.isSome && s.lng.isSome) = false →
        ∀ c ∈ newCs, s ∉ c.suburbs) := by
  simp only [splitCluster] at hout
  split at hout
  · exact absurd hout (by simp)
  · rename_i tgt hidx
    split at hout
    · exact absurd hout (by simp)
    · rename_i hlen
      have hout2 := Option.some.inj hout
      have hcs : (kmeansIter 50
          (tgt.suburbs.filter (fun s => s.lat.isSome && s.lng.isSome))
          (initCentroids (tgt.suburbs.filter (fun s => s.lat.isSome && s.lng.isSome))
            K)).length ≤ K := by
        rw [kmeansIter_length]
        exact initCentroids_le _ _
      have hbest : ∀ s ∈ tgt.suburbs.filter (fun s => s.lat.isSome && s.lng.isSome),
          bestIdx (ptOf s) (kmeansIter 50
            (tgt.suburbs.filter (fun s => s.lat.isSome && s.lng.isSome))
            (initCentroids (tgt.suburbs.filter (fun s => s.lat.isSome && s.lng.isSome))
              K)) < K :=
        fun s _ => bestIdx_lt _ _ _ hK hcs
      refine ⟨doc.findIdx (fun c => c.slug == target), tgt, _, rfl, hidx, hout2.symm,
        by simp, ?_, ?_, ?_⟩
      · have hfm : (((List.range K).map (fun k =>
            (⟨baseSlug ++ "-" ++ labelOf k, some (baseName ++ " " ++ labelNameOf k),
              (tgt.suburbs.filter (fun s => s.lat.isSome && s.lng.isSome)).filter
                (fun s => bestIdx (ptOf s) (kmeansIter 50
                  (tgt.suburbs.filter (fun s => s.lat.isSome && s.lng.isSome))
                  (initCentroids
                    (tgt.suburbs.filter (fun s => s.lat.isSome && s.lng.isSome)) K)) ==
                  k)⟩ : SCluster))).flatMap SCluster.suburbs) =
            (List.range K).flatMap (fun k =>
              (tgt.suburbs.filter (fun s => s.lat.isSome && s.lng.isSome)).filter
                (fun s => bestIdx (ptOf s) (kmeansIter 50
                  (tgt.suburbs.filter (fun s => s.lat.isSome && s.lng.isSome))
                  (initCentroids
                    (tgt.suburbs.filter (fun s => s.lat.isSome && s.lng.isSome)) K)) ==
                  k)) := by
          rw [List.flatMap_def, List.map_map, ← List.flatMap_def]
          rfl
        rw [hfm]
        exact flatMap_filter_perm _ K _ hbest
      · intro s hs
        refine ⟨bestIdx (ptOf s) (kmeansIter 50
            (tgt.suburbs.filter (fun s => s.lat.isSome && s.lng.isSome))
            (initCentroids (tgt.suburbs.filter (fun s => s.lat.isSome && s.lng.isSome))
              K)), ?_, ?_⟩
        · dsimp only
          rw [List.get?_map, List.get?_range (hbest s hs)]
          exact ⟨_, rfl, List.mem_filter.mpr ⟨hs, by simp⟩⟩
        · intro k hk
          rcases hk with ⟨c, hget, hmem⟩
          by_cases hkK : k < K
          · rw [List.get?_map, List.get?_range hkK] at hget
            have hc := Option.some.inj hget
            rw [← hc] at hmem
            have h6 := (List.mem_filter.mp hmem).2
            simp only [beq_iff_eq] at h6
            exact h6.symm
          · rw [List.get?_map] at hget
            rw [List.get?_eq_none.mpr (by simpa using Nat.le_of_not_lt hkK)] at hget
            exact absurd hget (by simp)
      · intro s hs hcoord c hc hmem
        rcases List.mem_map.mp hc with ⟨k, _, hck⟩
        rw [← hck] at hmem
        have hsub := (List.mem_filter.mp hmem).1
        have h7 := (List.mem_filter.mp hsub).2
        rw [hcoord] at h7
        exact absurd h7 (by simp)
/-- A two-cluster document whose `brisbane-city` cluster holds two
coordinate-bearing suburbs and one without coordinates. -/
def c10doc : List SCluster :=
  [⟨"other", none, [⟨"x", none, none, none⟩]⟩,
    ⟨"brisbane-city", none, [⟨"a", none, some 0, some 0⟩,
      ⟨"b", none, some 10, some 10⟩, ⟨"c", none, none, none⟩]⟩]

/-- The rewritten document: the `other` cluster untouched, the target
replaced by two sub-clusters holding `a` and `b`; the coordinate-less
`c` is gone. -/
def c10out : List SCluster :=
  [⟨"other", none, [⟨"x", none, none, none⟩]⟩,
    ⟨"brisbane-inner-north", some "Brisbane inner-north",
      [⟨"a", none, some 0, some 0⟩]⟩,
    ⟨"brisbane-west", some "Brisbane west", [⟨"b", none, some 10, some 10⟩]⟩]

/-- C10 witness: on the concrete document the splitter succeeds with
the expected rewritten document, and the partition conclusions hold at
that input. -/
theorem c10_split_partition_witness :
    splitCluster c10doc 2 "brisbane-city" "Brisbane" "brisbane" = some c10out ∧
    (∃ idx tgt newCs,
      idx = c10doc.findIdx (fun c => c.slug == "brisbane-city") ∧
      c10doc.get? idx = some tgt ∧
      c10out = c10doc.take idx ++ newCs ++ c10doc.drop (idx + 1) ∧
      newCs.length = 2 ∧
      (newCs.flatMap SCluster.suburbs).Perm
        (tgt.suburbs.filter (fun s => s.lat.isSome && s.lng.isSome)) ∧
      (∀ s ∈ tgt.suburbs.filter (fun s => s.lat.isSome && s.lng.isSome),
        ∃! k, ∃ c, newCs.get? k = some c ∧ s ∈ c.suburbs) ∧
      (∀ s ∈ tgt.suburbs, (s.lat.isSome && s.lng.isSome) = false →
        ∀ c ∈ newCs, s ∉ c.suburbs)) := by
  have hout : splitCluster c10doc 2 "brisbane-city" "Brisbane" "brisbane" =
      some c10out := by
    with_unfolding_all rfl
  exact ⟨hout, c10_split_partition c10doc 2 "brisbane-city" "Brisbane" "brisbane"
    c10out (by decide) hout⟩
end Geo
